import Mathlib

/-!
Verification of the spatial reference engine of an MRI toolkit
(source file `src/mritk/data/orientation.py`), shallow-embedded over exact
rational arithmetic.  Machine floats of the source are modelled as `ℚ`;
numpy arrays of points become functions `Fin 3 → ℚ`; fallible numpy calls
(`np.linalg.inv` on a singular matrix, slicing with step zero, `transpose`
with a repeated axis) become `Except`/`Option` failures.
-/

namespace MRITK

/-- A 4x4 homogeneous affine matrix with rational entries. -/
abbrev Mat4 := Matrix (Fin 4) (Fin 4) ℚ

/-- Embedding of `apply_affine(T, X)` from `orientation.py`:
`A = T[:-1,:-1]`, `b = T[:-1,-1]`, result `A.dot(X.T).T + b`.
numpy vectorizes over the rows of `X`; the embedding applies the map to a
single 3-D point, batches being treated pointwise. -/
def apply_affine (T : Mat4) (x : Fin 3 → ℚ) : Fin 3 → ℚ :=
  fun i => (∑ j : Fin 3, T i.castSucc j.castSucc * x j) + T i.castSucc 3

/-- Homogeneous extension of a 3-D point: `(x, y, z, 1)`. -/
def homog (x : Fin 3 → ℚ) : Fin 4 → ℚ :=
  Fin.lastCases 1 x

/-- The exact inverse of a 4x4 rational matrix, as computed by
`np.linalg.inv` on a non-singular input (adjugate over determinant). -/
def inv4 (T : Mat4) : Mat4 :=
  (T.det)⁻¹ • T.adjugate

/-- Embedding of `np.linalg.inv` on 4x4 matrices: numpy raises
`LinAlgError` on a singular input, modelled as `Except.error`. -/
def np_linalg_inv (T : Mat4) : Except String Mat4 :=
  if T.det = 0 then .error "Singular matrix" else .ok (inv4 T)

/-- A matrix is a homogeneous affine when its bottom row is `[0,0,0,1]`
(the data-model invariant of the repository for `MRIData.affine`). -/
def IsAffine (T : Mat4) : Prop :=
  ∀ j, T 3 j = if j = 3 then 1 else 0

/-- Embedding of `np.rint`: round to the nearest integer, ties to even. -/
def rint (q : ℚ) : ℤ :=
  if q - ⌊q⌋ < 1/2 then ⌊q⌋
  else if 1/2 < q - ⌊q⌋ then ⌊q⌋ + 1
  else if ⌊q⌋ % 2 = 0 then ⌊q⌋ else ⌊q⌋ + 1

/-- Embedding of `physical_to_voxel_indices(physical_coordinates, affine,
round_coords)`: invert the affine (numpy raises on a singular one), apply
the inverse, and optionally round every coordinate with `np.rint` (the cast
to `int` is modelled by returning the integer coerced back to `ℚ`). -/
def physical_to_voxel_indices (x : Fin 3 → ℚ) (affine : Mat4)
    (round_coords : Bool) : Except String (Fin 3 → ℚ) :=
  (np_linalg_inv affine).map fun Tinv =>
    let y := apply_affine Tinv x
    if round_coords then fun i => ((rint (y i) : ℤ) : ℚ) else y

instance (T : Mat4) : Decidable (IsAffine T) :=
  inferInstanceAs (Decidable (∀ j, T 3 j = if j = 3 then 1 else 0))

/-- Concrete invertible affine used by witnesses. -/
def TW : Mat4 :=
  !![2, 0, 0, 5; 0, 1, 0, -3; 0, 0, -1, 7; 0, 0, 0, 1]

/-- Axis identity of an anatomical axis letter, following the
`axes_labels` table of `change_of_coordinates_map`:
R/L map to 0, A/P to 1, S/I to 2; any other character is not a valid
axis label (`char not in axes_labels`). -/
def axisIdx (c : Char) : Option ℕ :=
  if c = 'R' ∨ c = 'L' then some 0
  else if c = 'A' ∨ c = 'P' then some 1
  else if c = 'S' ∨ c = 'I' then some 2
  else none

/-- Failure modes of `change_of_coordinates_map`.  The source raises
`ValueError` with distinct messages for an invalid axis label and for an
unmatched axis; `indexErr` models the `IndexError` numpy raises when a
never-assigned (NaN) `order` entry is cast to `int` and used as a column
index, and `broadcastErr` the `ValueError` numpy raises when the
`np.diag` block of a label whose length is neither 1 nor 3 is assigned
into the 3x3 block of `F`. -/
inductive AxisErr where
  | invalidLabel (c : Char)
  | unmatched
  | indexErr
  | broadcastErr
deriving DecidableEq

/-- Sign of an integer, as `np.sign` computes it on the `order` array. -/
def sgnz (o : ℤ) : ℤ :=
  if 0 < o then 1 else if o < 0 then -1 else 0

/-- Embedding of the inner loop of `change_of_coordinates_map`: scan
`orientation_out` with 1-based position `idx2`; raise on an invalid
character, store `idx2` (sign flipped when the letters differ) on an
axis match and stop, raise an unmatched-axis error when the last
character is reached without a match.  An empty `orientation_out` leaves
the NaN initialisation of the `order` entry in place (`none`). -/
def matchAxis (c1 : Char) : List Char → ℕ → Except AxisErr (Option ℤ)
  | [], _ => .ok none
  | c2 :: rest, idx2 =>
    match axisIdx c2 with
    | none => .error (.invalidLabel c2)
    | some a2 =>
      if axisIdx c1 = some a2 then
        .ok (some (if c1 = c2 then (idx2 : ℤ) else -(idx2 : ℤ)))
      else if rest = [] then .error .unmatched
      else matchAxis c1 rest (idx2 + 1)

/-- Embedding of the outer loop of `change_of_coordinates_map`: validate
each character of `orientation_in`, then run the inner scan; the first
error raised wins. -/
def buildOrder : List Char → List Char → Except AxisErr (List (Option ℤ))
  | [], _ => .ok []
  | c1 :: rest, out =>
    match axisIdx c1 with
    | none => .error (.invalidLabel c1)
    | some _ =>
      match matchAxis c1 out 1 with
      | .error e => .error e
      | .ok o =>
        match buildOrder rest out with
        | .error e => .error e
        | .ok os => .ok (o :: os)

/-- The index-flip matrix `F` of the source: `np.eye(4)` with the upper
3x3 block replaced by `np.diag(flips)` and, in `data_reorientation`, the
index offsets written into the last column. -/
def flipMat (s off : Fin 3 → ℤ) : Mat4 :=
  Matrix.of fun i j =>
    if hi : (i : ℕ) < 3 then
      (if (j : ℕ) = (i : ℕ) then (s ⟨i, hi⟩ : ℚ)
       else if (j : ℕ) = 3 then (off ⟨i, hi⟩ : ℚ) else 0)
    else if (j : ℕ) = 3 then 1 else 0

/-- The column-permutation matrix of `change_of_coordinates_map`:
`P = np.eye(4); P[:, :3] = P[:, index_order]`, so column `c < 3` becomes
column `ord c` of the identity and column 3 stays `e3`. -/
def permColMat (ord : Fin 3 → ℕ) : Mat4 :=
  Matrix.of fun r c =>
    if hc : (c : ℕ) < 3 then (if (r : ℕ) = ord ⟨c, hc⟩ then (1 : ℚ) else 0)
    else if (r : ℕ) = 3 then 1 else 0

/-- The matrix-assembly tail of `change_of_coordinates_map`, applied to
the computed `order` array.  A three-entry order takes the normal path
`P @ F`; numpy quirks for other shapes are modelled by the matching
failure: a one-entry order broadcasts its 1x1 `np.diag` block over the
whole 3x3 block of `F` and repeats one identity column across `P`; any
other length makes the `F[:3,:3] = np.diag(...)` assignment raise a
broadcast `ValueError`; a NaN (never-matched) entry survives to the
integer cast and makes `P[:, index_order]` raise an `IndexError`, as
does a stored index beyond the four columns of `P`. -/
def matrixOfOrder : List (Option ℤ) → Except AxisErr Mat4
  | [some o0, some o1, some o2] =>
    if o0.natAbs - 1 < 4 ∧ o1.natAbs - 1 < 4 ∧ o2.natAbs - 1 < 4 then
      .ok (permColMat (fun i => (![o0, o1, o2] i).natAbs - 1)
        * flipMat (fun i => sgnz (![o0, o1, o2] i)) (fun _ => 0))
    else .error .indexErr
  | [some o] =>
    if o.natAbs - 1 < 4 then
      .ok (((Matrix.of fun r c =>
          if (c : ℕ) < 3 then (if (r : ℕ) = o.natAbs - 1 then (1 : ℚ) else 0)
          else if (r : ℕ) = 3 then 1 else 0) : Mat4)
        * ((Matrix.of fun r c =>
          if (r : ℕ) < 3 ∧ (c : ℕ) < 3 then (sgnz o : ℚ)
          else if r = c then 1 else 0) : Mat4))
    else .error .indexErr
  | [_, _, _] => .error .indexErr
  | [_] => .error .indexErr
  | _ => .error .broadcastErr

/-- Embedding of `change_of_coordinates_map(orientation_in,
orientation_out)`: run the matching loops, then assemble `P @ F`. -/
def change_of_coordinates_map (cin cout : List Char) : Except AxisErr Mat4 :=
  match buildOrder cin cout with
  | .error e => .error e
  | .ok order => matrixOfOrder order

/-- A valid orientation label: three characters, each a valid axis
letter, covering the three physical axes exactly once (pairwise distinct
axis identities). -/
def isValidLabel (s : List Char) : Bool :=
  match s with
  | [a, b, c] =>
    (axisIdx a).isSome && (axisIdx b).isSome && (axisIdx c).isSome
      && (axisIdx a != axisIdx b) && (axisIdx a != axisIdx c)
      && (axisIdx b != axisIdx c)
  | _ => false

/-- The signed 1-based `order` entry stored by the matching loop when the
input character `c` finds the same-axis character `c2` at 0-based output
position `j`. -/
def cocOrd (c c2 : Char) (j : Fin 3) : ℤ :=
  if c = c2 then ((j : ℕ) + 1 : ℤ) else -((j : ℕ) + 1 : ℤ)

/-- The 3x3 linear block of a homogeneous affine (`affine[:3, :3]`). -/
def linPart (T : Mat4) : Matrix (Fin 3) (Fin 3) ℚ :=
  Matrix.of fun i j => T i.castSucc j.castSucc

/-- A volumetric dataset (`MRIData` of `base.py`): three spatial extents
`shape`, the voxel payload as a total function on integer index vectors
(out-of-range indices are never produced by the embedded operations), a
list `extra` of trailing non-spatial extents, and the 4x4
voxel-to-physical affine.  The fiber type `α` absorbs the trailing
dimensions of the numpy array, which `data_reorientation` slices with
`...` and carries through untouched. -/
@[ext]
structure MRIData (α : Type _) where
  shape : Fin 3 → ℕ
  extra : List ℕ
  data : (Fin 3 → ℤ) → α
  affine : Mat4

/-- The full numpy shape tuple `data.shape` of a dataset. -/
def MRIData.fullShape {α : Type _} (d : MRIData α) : List ℕ :=
  [d.shape 0, d.shape 1, d.shape 2] ++ d.extra

/-- First index of the maximum of three rationals: `np.argmax` down one
column, ties resolved to the first occurrence. -/
def argmax3 (f : Fin 3 → ℚ) : Fin 3 :=
  if f 1 ≤ f 0 ∧ f 2 ≤ f 0 then 0 else if f 2 ≤ f 1 then 1 else 2

/-- Sign of a rational, as `np.sign` computes it. -/
def sgnq (x : ℚ) : ℤ :=
  if 0 < x then 1 else if x < 0 then -1 else 0

/-- First position at which `p` takes the value `k`, and 0 when there is
none: the `inverse_permutes = np.argmax(P[:3,:3].T, axis=1)` of the
source. -/
def pinv (p : Fin 3 → Fin 3) (k : Fin 3) : Fin 3 :=
  if p 0 = k then 0 else if p 1 = k then 1 else if p 2 = k then 2 else 0

/-- `permutes = np.argmax(np.abs(A), axis=0)` of `data_reorientation`:
for each column (array axis) the row (physical axis) with the largest
absolute entry. -/
def reorientPerm (T : Mat4) : Fin 3 → Fin 3 :=
  fun j => argmax3 fun i => |linPart T i j|

/-- `flips = np.sign(A[permutes, arange(3)])` of `data_reorientation`. -/
def reorientFlip (T : Mat4) : Fin 3 → ℤ :=
  fun j => sgnq (linPart T (reorientPerm T j) j)

/-- `offsets = ((1 - flips) // 2) * (shape[:3] - 1)` of
`data_reorientation`. -/
def reorientOff {α : Type _} (d : MRIData α) : Fin 3 → ℤ :=
  fun j => ((1 - reorientFlip d.affine j) / 2) * ((d.shape j : ℤ) - 1)

/-- The row-permutation matrix `P = np.eye(4, dtype=int)[[*permutes, 3]]`
of `data_reorientation`: row `i < 3` is the standard basis row at
`permutes i`, row 3 stays `e3`. -/
def permMat (p : Fin 3 → Fin 3) : Mat4 :=
  Matrix.of fun i j =>
    if hi : (i : ℕ) < 3 then
      (if (j : ℕ) = (p ⟨i, hi⟩ : ℕ) then 1 else 0)
    else if (j : ℕ) = 3 then 1 else 0

/-- Embedding of `data_reorientation(mri_data)`.  numpy raises when some
flip is zero (`data[::0]` is a zero-step slice, `ValueError`) and when
`permutes` is not injective (`inverse_permutes` then repeats an axis and
`transpose` raises `ValueError`); both failures are modelled as `none`.
On success the value at new index `v` is the original value at index
`m ↦ flips m * v[permutes m] + offsets m` (the flipped, transposed view,
copied), and the new affine is `affine @ F @ P`. -/
def data_reorientation {α : Type _} (d : MRIData α) : Option (MRIData α) :=
  if (reorientFlip d.affine 0 ≠ 0 ∧ reorientFlip d.affine 1 ≠ 0 ∧
        reorientFlip d.affine 2 ≠ 0) ∧
      (reorientPerm d.affine 0 ≠ reorientPerm d.affine 1 ∧
        reorientPerm d.affine 0 ≠ reorientPerm d.affine 2 ∧
        reorientPerm d.affine 1 ≠ reorientPerm d.affine 2) then
    some
      { shape := fun k => d.shape (pinv (reorientPerm d.affine) k)
        extra := d.extra
        data := fun v => d.data fun m =>
          reorientFlip d.affine m * v (reorientPerm d.affine m)
            + reorientOff d m
        affine := d.affine
          * flipMat (reorientFlip d.affine) (reorientOff d)
          * permMat (reorientPerm d.affine) }
  else none

/-- Application of an affine to an integer voxel index. -/
def apply_affine_idx (T : Mat4) (v : Fin 3 → ℤ) : Fin 3 → ℚ :=
  apply_affine T fun i => (v i : ℚ)

/-- Index in the reoriented array at which the content of original voxel
`v` sits: the inverse of the index map
`m ↦ flips m * v (permutes m) + offsets m` along which
`data_reorientation` pulls values out of the original array. -/
def reorientInvIdx {α : Type _} (d : MRIData α) (v : Fin 3 → ℤ) :
    Fin 3 → ℤ :=
  fun k => reorientFlip d.affine (pinv (reorientPerm d.affine) k)
    * (v (pinv (reorientPerm d.affine) k)
      - reorientOff d (pinv (reorientPerm d.affine) k))

/-- Concrete dataset used by the C1 witness: its affine permutes and
flips the array axes. -/
def dW : MRIData ℚ :=
  { shape := ![2, 3, 4]
    extra := []
    data := fun v => (v 0 : ℚ) + 2 * (v 1 : ℚ) + 3 * (v 2 : ℚ)
    affine := !![0, 2, 0, 1; -3, 0, 0, 0; 0, 0, 5, 2; 0, 0, 0, 1] }

/-- Concrete voxel index of `dW` at which the reorientation mapping
theorem is instantiated. -/
def vW : Fin 3 → ℤ := ![0, 1, 2]

/-- The reoriented `dW`: `data_reorientation` succeeds on `dW`, and `rW`
is the dataset it produces. -/
def rW : MRIData ℚ := (data_reorientation dW).get (by decide)

/-- Concrete dataset with an invertible affine on which
`data_reorientation` nevertheless fails: columns 0 and 1 of the linear
block are both dominated by row 0, so `permutes` repeats an axis and
`transpose` raises. -/
def dBad : MRIData ℚ :=
  { shape := ![2, 2, 2]
    extra := []
    data := fun _ => 0
    affine := !![2, 3, 0, 0; 0, 1, 0, 0; 0, 0, 1, 0; 0, 0, 0, 1] }

instance {ε α : Type _} [DecidableEq ε] [DecidableEq α] :
    DecidableEq (Except ε α) := fun a b =>
  match a, b with
  | .error e, .error f =>
    if h : e = f then isTrue (by rw [h]) else isFalse (by simp [h])
  | .ok x, .ok y =>
    if h : x = y then isTrue (by rw [h]) else isFalse (by simp [h])
  | .error _, .ok _ => isFalse (by simp)
  | .ok _, .error _ => isFalse (by simp)

/-- Payload of the `ValueError` raised by `assert_same_space` (the
`SpaceMismatch` condition of the spec): the message interpolates both
shape tuples, both affine matrices and the maximum relative affine
discrepancy. -/
structure SpaceMismatch where
  shape1 : List ℕ
  shape2 : List ℕ
  affine1 : Mat4
  affine2 : Mat4
  err : Option (WithTop ℚ)

/-- Elementwise `np.abs((a - b) / b)` with IEEE semantics over exact
rationals: `0/0` is NaN (`none`), `x/0` for nonzero `x` is infinite
(`some ⊤`), and anything else is the finite rational quotient. -/
def relErrEntry (a b : ℚ) : Option (WithTop ℚ) :=
  if b = 0 then (if a = b then none else some ⊤)
  else some ((|(a - b) / b| : ℚ) : WithTop ℚ)

/-- Maximum of two IEEE-style values in which `none` plays NaN: the
accumulation step of `np.nanmax`, which ignores NaNs. -/
def optMax (x y : Option (WithTop ℚ)) : Option (WithTop ℚ) :=
  match x, y with
  | none, z => z
  | some a, none => some a
  | some a, some b => some (max a b)

/-- Embedding of `np.nanmax(np.abs((A - B) / B))` over the 16 affine
entries: the largest non-NaN relative discrepancy, or `none` when every
entry is NaN. -/
def nanmaxRelErr (A B : Mat4) : Option (WithTop ℚ) :=
  (List.finRange 4).foldl (fun acc i =>
    (List.finRange 4).foldl (fun acc2 j =>
      optMax acc2 (relErrEntry (A i j) (B i j))) acc) none

/-- Embedding of `assert_same_space(mri1, mri2, rtol)`.  The source
compares the full `data.shape` tuples (spatial and trailing dimensions
alike) and calls `np.allclose(affine1, affine2, rtol)`, whose third
positional argument is `rtol` while `atol` keeps its default `1e-8`, so
the entrywise test is `|a - b| <= atol + rtol * |b|`.  On failure it
raises a `ValueError` carrying both shapes, both affines and the
`nanmax` of the elementwise relative discrepancies. -/
def assert_same_space {α β : Type _} (mri1 : MRIData α) (mri2 : MRIData β)
    (rtol : ℚ) : Except SpaceMismatch Unit :=
  if mri1.fullShape = mri2.fullShape ∧
      ∀ i j, |mri1.affine i j - mri2.affine i j|
        ≤ 1 / 100000000 + rtol * |mri2.affine i j| then
    .ok ()
  else
    .error { shape1 := mri1.fullShape
             shape2 := mri2.fullShape
             affine1 := mri1.affine
             affine2 := mri2.affine
             err := nanmaxRelErr mri1.affine mri2.affine }

/-- Scalar volume used by the space-comparison counterexample: spatial
shape 2x2x2, identity affine, no trailing dimensions. -/
def dS1 : MRIData ℚ :=
  { shape := ![2, 2, 2], extra := [], data := fun _ => 0, affine := 1 }

/-- Vector-valued companion of `dS1`: identical spatial shape, identical
affine, but one trailing dimension of extent 3. -/
def dS2 : MRIData (Fin 3 → ℚ) :=
  { shape := ![2, 2, 2], extra := [3], data := fun _ _ => 0, affine := 1 }

/-- Error payload produced by comparing `dS1` against `dS2`. -/
def eS : SpaceMismatch :=
  { shape1 := dS1.fullShape
    shape2 := dS2.fullShape
    affine1 := dS1.affine
    affine2 := dS2.affine
    err := nanmaxRelErr dS1.affine dS2.affine }

/-- Dataset whose affine has the near-zero entry `1e-9` at position
(0, 0) and is the identity elsewhere. -/
def dT1 : MRIData ℚ :=
  { shape := ![1, 1, 1], extra := [], data := fun _ => 0
    affine := !![1/1000000000, 0, 0, 0; 0, 1, 0, 0; 0, 0, 1, 0;
      0, 0, 0, 1] }

/-- Companion of `dT1` whose affine has an exact 0 at position (0, 0):
the two entries differ, yet fall within the absolute `atol` slack of
`np.allclose`. -/
def dT2 : MRIData ℚ :=
  { shape := ![1, 1, 1], extra := [], data := fun _ => 0
    affine := !![0, 0, 0, 0; 0, 1, 0, 0; 0, 0, 1, 0; 0, 0, 0, 1] }

/-- Row-major enumeration of all voxel coordinates of an X x Y x Z
boolean mask, in the lexicographic order `np.argwhere` scans them. -/
def gridCoords (X Y Z : ℕ) : List (ℕ × ℕ × ℕ) :=
  (List.range X).flatMap fun x =>
    (List.range Y).flatMap fun y =>
      (List.range Z).map fun z => (x, y, z)

/-- Embedding of `valid_inds = np.argwhere(mask)`: the coordinates of
the True entries, in row-major scan order. -/
def np_argwhere (X Y Z : ℕ) (mask : ℕ × ℕ × ℕ → Bool) :
    List (ℕ × ℕ × ℕ) :=
  (gridCoords X Y Z).filter mask

/-- Squared Euclidean distance from a (possibly fractional) query
coordinate to a voxel coordinate. -/
def sqDist (q : ℚ × ℚ × ℚ) (v : ℕ × ℕ × ℕ) : ℚ :=
  (q.1 - (v.1 : ℚ)) ^ 2 + (q.2.1 - (v.2.1 : ℚ)) ^ 2
    + (q.2.2 - (v.2.2 : ℚ)) ^ 2

/-- Model of `scipy.spatial.KDTree(pts).query(q, k)` followed by the
lookup `pts[indices]`: the k points of `pts` nearest to `q` in
Euclidean distance, nearest first.  Ties come back in a stable but
otherwise unspecified order, which the stable insertion sort
realises. -/
def kdtree_query (pts : List (ℕ × ℕ × ℕ)) (q : ℚ × ℚ × ℚ) (k : ℕ) :
    List (ℕ × ℕ × ℕ) :=
  (pts.insertionSort fun a b => sqDist q a ≤ sqDist q b).take k

/-- Embedding of `find_nearest_valid_voxels(query_indices, mask, k)`.
Raises when the mask has no True entry (checked first, before the tree
is built).  `KDTree.query` then validates `k >= 1`, raising a
`ValueError` otherwise.  When `k` exceeds the number of indexed points,
`query` pads the returned neighbour indices with the sentinel value
`n = len(valid_inds)`, so the lookup `valid_inds[indices]` raises an
`IndexError` — unless the query batch is empty, in which case the
integer index array is empty and numpy indexes nothing.  Otherwise the
result holds, per query point, the k nearest True voxels.  The final
`.T` transpose and the `k = 1` `newaxis` of the source reshape this
fixed content and are not modelled. -/
def find_nearest_valid_voxels (queries : List (ℚ × ℚ × ℚ))
    (X Y Z : ℕ) (mask : ℕ × ℕ × ℕ → Bool) (k : ℕ) :
    Except String (List (List (ℕ × ℕ × ℕ))) :=
  if (np_argwhere X Y Z mask).length = 0 then
    .error "No valid indices found in mask."
  else if k = 0 then
    .error "k must be greater than or equal to one"
  else if queries ≠ [] ∧ (np_argwhere X Y Z mask).length < k then
    .error "index out of bounds"
  else
    .ok (queries.map fun q => kdtree_query (np_argwhere X Y Z mask) q k)

/-- All-true mask on the 1x1x1 grid: exactly one True voxel, used to
exhibit the overcount failure at k = 2. -/
def mask1 : ℕ × ℕ × ℕ → Bool := fun _ => true

/-- Mask of the spec's 6x6 scenario, embedded at depth 1: True exactly
at (0,0) and (5,5). -/
def maskW : ℕ × ℕ × ℕ → Bool :=
  fun v => v == (0, 0, 0) || v == (5, 5, 0)

/-- All-false mask of the empty-mask scenario. -/
def mask0 : ℕ × ℕ × ℕ → Bool := fun _ => false

/-- Query points of the spec's concrete scenario: (0.1, 0.1) and
(4.9, 4.9), at depth 0. -/
def qsW : List (ℚ × ℚ × ℚ) := [(1/10, 1/10, 0), (49/10, 49/10, 0)]


@[simp]
theorem homog_castSucc (x : Fin 3 → ℚ) (i : Fin 3) :
    homog x i.castSucc = x i := by
  simp [homog]

@[simp]
theorem homog_last (x : Fin 3 → ℚ) : homog x 3 = 1 := by
  rw [show (3 : Fin 4) = Fin.last 3 from rfl, homog]
  exact Fin.lastCases_last

theorem apply_affine_eq_mulVec (T : Mat4) (x : Fin 3 → ℚ) (i : Fin 3) :
    apply_affine T x i = T.mulVec (homog x) i.castSucc := by
  simp only [Matrix.mulVec, Matrix.dotProduct]
  rw [Fin.sum_univ_castSucc]
  simp [apply_affine, homog_castSucc, show (Fin.last 3) = (3 : Fin 4) from rfl,
    homog_last]

theorem mulVec_homog (N : Mat4) (hN : IsAffine N) (x : Fin 3 → ℚ) :
    N.mulVec (homog x) = homog (apply_affine N x) := by
  funext j
  induction j using Fin.lastCases with
  | last =>
      have hN' : ∀ j, N 3 j = if j = 3 then 1 else 0 := hN
      rw [show (Fin.last 3 : Fin 4) = 3 from rfl, homog_last]
      simp only [Matrix.mulVec, Matrix.dotProduct, hN', ite_mul, one_mul,
        zero_mul]
      rw [Finset.sum_ite_eq' Finset.univ (3 : Fin 4) (fun k => homog x k),
        if_pos (Finset.mem_univ _)]
      exact homog_last x
  | cast i =>
      rw [homog_castSucc]
      exact (apply_affine_eq_mulVec N x i).symm

theorem inv4_mul (T : Mat4) (h : T.det ≠ 0) : inv4 T * T = 1 := by
  rw [inv4, Matrix.smul_mul, Matrix.adjugate_mul, smul_smul,
    inv_mul_cancel₀ h, one_smul]

theorem mul_inv4 (T : Mat4) (h : T.det ≠ 0) : T * inv4 T = 1 := by
  rw [inv4, Matrix.mul_smul, Matrix.mul_adjugate, smul_smul,
    inv_mul_cancel₀ h, one_smul]

theorem inv4_isAffine (T : Mat4) (h : T.det ≠ 0) (hT : IsAffine T) :
    IsAffine (inv4 T) := by
  intro j
  have hT' : ∀ k, T 3 k = if k = 3 then 1 else 0 := hT
  have h1 : (T * inv4 T) 3 j = (1 : Mat4) 3 j := by rw [mul_inv4 T h]
  rw [Matrix.mul_apply] at h1
  simp only [hT', ite_mul, one_mul, zero_mul] at h1
  rw [Finset.sum_ite_eq' Finset.univ (3 : Fin 4) (fun k => inv4 T k j),
    if_pos (Finset.mem_univ _), Matrix.one_apply] at h1
  rw [h1]
  rcases eq_or_ne j 3 with rfl | hj
  · simp
  · simp [hj, Ne.symm hj]

theorem np_linalg_inv_ok (T Tinv : Mat4) (h : np_linalg_inv T = .ok Tinv) :
    T.det ≠ 0 ∧ Tinv = inv4 T := by
  by_cases hd : T.det = 0
  · simp [np_linalg_inv, hd] at h
  · rw [np_linalg_inv, if_neg hd] at h
    cases h
    exact ⟨hd, rfl⟩

/-- C8: Affine application round-trips through inversion: for every
invertible 4x4 affine `T` (bottom row `[0,0,0,1]`, as the data model
requires of an affine) and every 3-D point `x`,
`apply(invert(T), apply(T, x)) = x`, exactly over rational arithmetic. -/
theorem affine_roundtrip (T Tinv : Mat4) (hT : IsAffine T)
    (hinv : np_linalg_inv T = .ok Tinv) (x : Fin 3 → ℚ) :
    apply_affine Tinv (apply_affine T x) = x := by
  obtain ⟨hdet, rfl⟩ := np_linalg_inv_ok T Tinv hinv
  funext i
  rw [apply_affine_eq_mulVec, ← mulVec_homog T hT, Matrix.mulVec_mulVec,
    inv4_mul T hdet, Matrix.one_mulVec, homog_castSucc]

/-- Cofactor expansion of a 4x4 literal determinant along the first row;
`Matrix.det` itself does not evaluate, so concrete determinants go through
this lemma. -/
theorem det4_of (a b c d e f g h i j k l m n o p : ℚ) :
    Matrix.det !![a,b,c,d; e,f,g,h; i,j,k,l; m,n,o,p] =
      a * (f * (k * p - l * o) - g * (j * p - l * n) + h * (j * o - k * n))
      - b * (e * (k * p - l * o) - g * (i * p - l * m) + h * (i * o - k * m))
      + c * (e * (j * p - l * n) - f * (i * p - l * m) + h * (i * n - j * m))
      - d * (e * (j * o - k * n) - f * (i * o - k * m) + g * (i * n - j * m))
      := by
  rw [Matrix.det_succ_row_zero]
  simp [Fin.sum_univ_succ, Matrix.det_fin_three, Matrix.submatrix_apply,
    Fin.zero_succAbove, Fin.succ_succAbove_zero, Fin.succ_succAbove_one,
    Fin.succ_succAbove_succ]
  simp only [show ((1 : Fin 4).succAbove 2) = 3 from rfl,
    show ((2 : Fin 4).succAbove 2) = 3 from rfl,
    show ((3 : Fin 4).succAbove 2) = 2 from rfl,
    show (Fin.castSucc 2 : Fin 4) = 2 from rfl]
  simp only [show (3 : Fin 4) = Fin.succ 2 from rfl,
    show (2 : Fin 4) = Fin.succ 1 from rfl,
    show (2 : Fin 3) = Fin.succ 1 from rfl,
    show (1 : Fin 3) = Fin.succ 0 from rfl,
    show (1 : Fin 2) = Fin.succ 0 from rfl,
    Matrix.cons_val_succ, Matrix.cons_val_zero]
  ring

theorem TW_det : TW.det = -2 := by
  unfold TW
  rw [det4_of]
  norm_num

/-- Witness for C8: the round-trip theorem applied at a concrete
invertible affine and point. -/
theorem affine_roundtrip_witness :
    IsAffine TW ∧ np_linalg_inv TW = .ok (inv4 TW) ∧
      apply_affine (inv4 TW) (apply_affine TW ![1, 2, 3]) = ![1, 2, 3] := by
  have hdet : TW.det ≠ 0 := by rw [TW_det]; norm_num
  have haff : IsAffine TW := by decide
  have hok : np_linalg_inv TW = .ok (inv4 TW) := by
    rw [np_linalg_inv, if_neg hdet]
  exact ⟨haff, hok, affine_roundtrip TW (inv4 TW) haff hok ![1, 2, 3]⟩

theorem rint_nearest (q : ℚ) (n : ℤ) :
    |(rint q : ℚ) - q| ≤ |(n : ℚ) - q| := by
  have hfl : ((⌊q⌋ : ℤ) : ℚ) ≤ q := Int.floor_le q
  have hfu : q < ((⌊q⌋ : ℤ) : ℚ) + 1 := Int.lt_floor_add_one q
  have hlow : ∀ m : ℤ, m ≤ ⌊q⌋ → q - ((⌊q⌋ : ℤ) : ℚ) ≤ |(m : ℚ) - q| := by
    intro m hm
    have hc : (m : ℚ) ≤ ((⌊q⌋ : ℤ) : ℚ) := by exact_mod_cast hm
    rw [abs_sub_comm, abs_of_nonneg (by linarith)]
    linarith
  have hhigh : ∀ m : ℤ, ⌊q⌋ + 1 ≤ m →
      1 - (q - ((⌊q⌋ : ℤ) : ℚ)) ≤ |(m : ℚ) - q| := by
    intro m hm
    have hc : ((⌊q⌋ : ℤ) : ℚ) + 1 ≤ (m : ℚ) := by exact_mod_cast hm
    rw [abs_of_nonneg (by linarith)]
    linarith
  have hcase : ∀ m : ℤ, m ≤ ⌊q⌋ ∨ ⌊q⌋ + 1 ≤ m := by
    intro m
    omega
  rw [rint]
  split_ifs with h1 h2 h3
  · rw [abs_sub_comm, abs_of_nonneg (by linarith)]
    rcases hcase n with hn | hn
    · exact hlow n hn
    · have := hhigh n hn
      linarith
  · rw [abs_of_nonneg (by push_cast; linarith)]
    push_cast
    rcases hcase n with hn | hn
    · have := hlow n hn
      linarith
    · have := hhigh n hn
      linarith
  · have hr : q - ((⌊q⌋ : ℤ) : ℚ) = 1/2 := le_antisymm (not_lt.mp h2) (not_lt.mp h1)
    rw [abs_sub_comm, abs_of_nonneg (by linarith)]
    rcases hcase n with hn | hn
    · exact hlow n hn
    · have := hhigh n hn
      linarith
  · have hr : q - ((⌊q⌋ : ℤ) : ℚ) = 1/2 := le_antisymm (not_lt.mp h2) (not_lt.mp h1)
    rw [abs_of_nonneg (by push_cast; linarith)]
    push_cast
    rcases hcase n with hn | hn
    · have := hlow n hn
      linarith
    · have := hhigh n hn
      linarith

theorem np_linalg_inv_one : np_linalg_inv (1 : Mat4) = .ok 1 := by
  rw [np_linalg_inv, if_neg]
  · rw [inv4, Matrix.det_one, Matrix.adjugate_one]
    norm_num
  · rw [Matrix.det_one]
    norm_num

theorem apply_affine_one (x : Fin 3 → ℚ) : apply_affine 1 x = x := by
  funext i
  have h3 : i.castSucc ≠ (3 : Fin 4) := Fin.ne_of_lt (Fin.castSucc_lt_last i)
  simp [apply_affine, Matrix.one_apply, Fin.castSucc_inj, h3,
    Finset.sum_ite_eq]

/-- C6: `physical_to_voxel_indices` computes the inverse of the affine and
applies it; with `round_coords = false` the fractional coordinates are
returned unchanged (identity affine maps `(10.5,10.5,10.5)` to itself),
and with `round_coords = true` every coordinate is rounded to a nearest
integer (no integer is strictly closer; identity affine maps
`(10.9,10.9,10.9)` to `(11,11,11)`). -/
theorem physical_to_voxel_spec :
    (∀ (T Tinv : Mat4) (x : Fin 3 → ℚ), np_linalg_inv T = .ok Tinv →
      physical_to_voxel_indices x T false = .ok (apply_affine Tinv x) ∧
      physical_to_voxel_indices x T true
          = .ok (fun i => ((rint (apply_affine Tinv x i) : ℤ) : ℚ)) ∧
      (∀ (i : Fin 3) (n : ℤ),
        |((rint (apply_affine Tinv x i) : ℤ) : ℚ) - apply_affine Tinv x i|
          ≤ |(n : ℚ) - apply_affine Tinv x i|)) ∧
    physical_to_voxel_indices ![21/2, 21/2, 21/2] 1 false
        = .ok ![21/2, 21/2, 21/2] ∧
    physical_to_voxel_indices ![109/10, 109/10, 109/10] 1 true
        = .ok ![11, 11, 11] := by
  have hfloor : ⌊(109/10 : ℚ)⌋ = 10 := by
    rw [Int.floor_eq_iff]
    norm_num
  have hr : rint (109/10 : ℚ) = 11 := by
    rw [rint, hfloor]
    norm_num
  refine ⟨fun T Tinv x hinv => ⟨?_, ?_, fun i n => rint_nearest _ n⟩, ?_, ?_⟩
  · simp [physical_to_voxel_indices, hinv, Except.map]
  · simp [physical_to_voxel_indices, hinv, Except.map]
  · simp [physical_to_voxel_indices, np_linalg_inv_one, apply_affine_one,
      Except.map]
  · have h109 : ((![109/10, 109/10, 109/10] : Fin 3 → ℚ))
        = fun _ => 109/10 := by
      funext i
      fin_cases i <;> rfl
    have h11 : ((![11, 11, 11] : Fin 3 → ℚ)) = fun _ => 11 := by
      funext i
      fin_cases i <;> rfl
    have hv : (fun i => ((rint
        ((![109/10, 109/10, 109/10] : Fin 3 → ℚ) i) : ℤ) : ℚ))
        = ![11, 11, 11] := by
      rw [h109, h11]
      funext i
      rw [hr]
      norm_num
    simp only [physical_to_voxel_indices, np_linalg_inv_one, Except.map,
      apply_affine_one]
    rw [if_pos trivial, hv]

/-- Witness for C6: the universally quantified part of
`physical_to_voxel_spec` applied at a concrete invertible affine. -/
theorem physical_to_voxel_spec_witness :
    np_linalg_inv TW = .ok (inv4 TW) ∧
      (physical_to_voxel_indices ![1, 2, 3] TW false
          = .ok (apply_affine (inv4 TW) ![1, 2, 3]) ∧
        physical_to_voxel_indices ![1, 2, 3] TW true
            = .ok (fun i =>
                ((rint (apply_affine (inv4 TW) ![1, 2, 3] i) : ℤ) : ℚ)) ∧
        (∀ (i : Fin 3) (n : ℤ),
          |((rint (apply_affine (inv4 TW) ![1, 2, 3] i) : ℤ) : ℚ)
              - apply_affine (inv4 TW) ![1, 2, 3] i|
            ≤ |(n : ℚ) - apply_affine (inv4 TW) ![1, 2, 3] i|)) := by
  have hok : np_linalg_inv TW = .ok (inv4 TW) := by
    rw [np_linalg_inv, if_neg]
    rw [TW_det]
    norm_num
  exact ⟨hok, physical_to_voxel_spec.1 TW (inv4 TW) ![1, 2, 3] hok⟩

theorem permFlip_apply (p : Fin 3 → ℕ) (s : Fin 3 → ℤ) (r c : Fin 4) :
    (permColMat p * flipMat s (fun _ => 0)) r c =
      if hc : (c : ℕ) < 3 then
        (if (r : ℕ) = p ⟨c, hc⟩ then (s ⟨c, hc⟩ : ℚ) else 0)
      else if (r : ℕ) = 3 then 1 else 0 := by
  rw [Matrix.mul_apply]
  by_cases hc : (c : ℕ) < 3
  · rw [dif_pos hc, Finset.sum_eq_single c]
    · rw [permColMat, flipMat]
      simp only [Matrix.of_apply]
      rw [dif_pos hc, dif_pos hc]
      split_ifs <;> simp_all
    · intro k _ hk
      rw [flipMat]
      simp only [Matrix.of_apply]
      by_cases hk3 : (k : ℕ) < 3
      · rw [dif_pos hk3, if_neg (fun hv => hk (Fin.ext hv).symm),
          if_neg (by omega)]
        exact mul_zero _
      · rw [dif_neg hk3, if_neg (by omega)]
        exact mul_zero _
    · intro h
      exact absurd (Finset.mem_univ _) h
  · have hc3 : (c : ℕ) = 3 := by
      have := c.isLt
      omega
    rw [dif_neg hc, Finset.sum_eq_single (3 : Fin 4)]
    · rw [permColMat, flipMat]
      simp only [Matrix.of_apply]
      rw [dif_neg (by decide), dif_neg (by decide), if_pos hc3, mul_one]
    · intro k _ hk
      have hk3 : (k : ℕ) < 3 := by
        have h1 := k.isLt
        have h2 : (k : ℕ) ≠ 3 := fun hv => hk (Fin.ext hv)
        omega
      rw [flipMat]
      simp only [Matrix.of_apply]
      rw [dif_pos hk3, if_neg (by omega), if_pos hc3]
      simp
    · intro h
      exact absurd (Finset.mem_univ _) h

theorem permFlip_mul (p q : Fin 3 → ℕ) (s t : Fin 3 → ℤ)
    (hq3 : ∀ i, q i < 3)
    (hpq : ∀ c : Fin 3, p ⟨q c, hq3 c⟩ = (c : ℕ))
    (hst : ∀ c : Fin 3, s ⟨q c, hq3 c⟩ * t c = 1) :
    (permColMat p * flipMat s (fun _ => 0))
      * (permColMat q * flipMat t (fun _ => 0)) = 1 := by
  ext r c
  rw [Matrix.mul_apply]
  by_cases hc : (c : ℕ) < 3
  · rw [Finset.sum_eq_single (⟨q ⟨c, hc⟩, by
      have := hq3 ⟨c, hc⟩
      omega⟩ : Fin 4)]
    · rw [permFlip_apply, permFlip_apply]
      rw [dif_pos (show ((⟨q ⟨c, hc⟩, by
          have := hq3 ⟨c, hc⟩
          omega⟩ : Fin 4) : ℕ) < 3 from hq3 ⟨c, hc⟩)]
      rw [dif_pos hc, if_pos rfl, hpq ⟨c, hc⟩, Matrix.one_apply]
      by_cases hrc : r = c
      · rw [if_pos hrc, if_pos (by rw [hrc])]
        rw [← Int.cast_mul, hst ⟨c, hc⟩, Int.cast_one]
      · rw [if_neg hrc, if_neg (fun hv => hrc (Fin.ext hv)), zero_mul]
    · intro k _ hkne
      rw [permFlip_apply q t k c, dif_pos hc,
        if_neg (fun hv => hkne (Fin.ext hv)), mul_zero]
    · intro h
      exact absurd (Finset.mem_univ _) h
  · have hc3 : (c : ℕ) = 3 := by
      have := c.isLt
      omega
    rw [Finset.sum_eq_single (3 : Fin 4)]
    · rw [permFlip_apply p s r 3, permFlip_apply q t 3 c]
      rw [dif_neg (show ¬(((3 : Fin 4) : ℕ) < 3) from by decide)]
      rw [dif_neg hc]
      rw [if_pos (show ((3 : Fin 4) : ℕ) = 3 from rfl), mul_one,
        Matrix.one_apply]
      by_cases hr : r = c
      · rw [if_pos hr, if_pos (show (r : ℕ) = 3 from by rw [hr]; exact hc3)]
      · rw [if_neg hr,
          if_neg (show ¬((r : ℕ) = 3) from
            fun hv => hr (Fin.ext (by rw [hv, hc3])))]
    · intro k _ hkne
      rw [permFlip_apply q t k c, dif_neg hc,
        if_neg (show ¬((k : ℕ) = 3) from fun hv => hkne (Fin.ext hv)),
        mul_zero]
    · intro h
      exact absurd (Finset.mem_univ _) h

theorem vec3_eta {α : Type _} (f : Fin 3 → α) : ![f 0, f 1, f 2] = f := by
  funext i
  fin_cases i <;> simp

theorem axisIdx_lt3 (c : Char) (a : ℕ) (h : axisIdx c = some a) : a < 3 := by
  rw [axisIdx] at h
  split_ifs at h <;> simp_all <;> omega

theorem matchAxis_found (c : Char) (γ : ℕ) (hc : axisIdx c = some γ)
    (b0 b1 b2 : Char) (β0 β1 β2 : ℕ)
    (h0 : axisIdx b0 = some β0) (h1 : axisIdx b1 = some β1)
    (h2 : axisIdx b2 = some β2)
    (hd01 : β0 ≠ β1) (hd02 : β0 ≠ β2) (hd12 : β1 ≠ β2)
    (j : Fin 3) (hj : ![β0, β1, β2] j = γ) :
    matchAxis c [b0, b1, b2] 1
      = .ok (some (if c = ![b0, b1, b2] j then ((j : ℕ) + 1 : ℤ)
          else -((j : ℕ) + 1 : ℤ))) := by
  fin_cases j
  · have hj' : β0 = γ := hj
    show matchAxis c [b0, b1, b2] 1
      = .ok (some (if c = b0 then ((0 : ℕ) + 1 : ℤ) else -((0 : ℕ) + 1 : ℤ)))
    simp [matchAxis, h0, hc, hj']
  · have hj' : β1 = γ := hj
    have hne : ¬(γ = β0) := by omega
    show matchAxis c [b0, b1, b2] 1
      = .ok (some (if c = b1 then ((1 : ℕ) + 1 : ℤ) else -((1 : ℕ) + 1 : ℤ)))
    simp [matchAxis, h0, h1, hc, hne, hj']
  · have hj' : β2 = γ := hj
    have hne0 : ¬(γ = β0) := by omega
    have hne1 : ¬(γ = β1) := by omega
    show matchAxis c [b0, b1, b2] 1
      = .ok (some (if c = b2 then ((2 : ℕ) + 1 : ℤ) else -((2 : ℕ) + 1 : ℤ)))
    simp [matchAxis, h0, h1, h2, hc, hne0, hne1, hj']

theorem isValidLabel_shape (s : List Char) (h : isValidLabel s = true) :
    ∃ a b c, s = [a, b, c] := by
  rcases s with _ | ⟨a, _ | ⟨b, _ | ⟨c, _ | ⟨d, tl⟩⟩⟩⟩
  · simp [isValidLabel] at h
  · simp [isValidLabel] at h
  · simp [isValidLabel] at h
  · exact ⟨a, b, c, rfl⟩
  · simp [isValidLabel] at h

theorem isValidLabel_parts (a b c : Char) (h : isValidLabel [a, b, c] = true) :
    ∃ α β γ, axisIdx a = some α ∧ axisIdx b = some β ∧ axisIdx c = some γ ∧
      α ≠ β ∧ α ≠ γ ∧ β ≠ γ ∧ α < 3 ∧ β < 3 ∧ γ < 3 := by
  simp only [isValidLabel, Bool.and_eq_true, bne_iff_ne] at h
  obtain ⟨⟨⟨⟨⟨ha, hb⟩, hc⟩, hab⟩, hac⟩, hbc⟩ := h
  obtain ⟨α, hα⟩ := Option.isSome_iff_exists.mp ha
  obtain ⟨β, hβ⟩ := Option.isSome_iff_exists.mp hb
  obtain ⟨γ, hγ⟩ := Option.isSome_iff_exists.mp hc
  refine ⟨α, β, γ, hα, hβ, hγ, ?_, ?_, ?_,
    axisIdx_lt3 a α hα, axisIdx_lt3 b β hβ, axisIdx_lt3 c γ hγ⟩
  · intro he
    rw [hα, hβ, he] at hab
    exact hab rfl
  · intro he
    rw [hα, hγ, he] at hac
    exact hac rfl
  · intro he
    rw [hβ, hγ, he] at hbc
    exact hbc rfl

theorem cocOrd_natAbs (c c2 : Char) (j : Fin 3) :
    (cocOrd c c2 j).natAbs = (j : ℕ) + 1 := by
  rw [cocOrd]
  split_ifs <;> omega

theorem cocOrd_sgnz (c c2 : Char) (j : Fin 3) :
    sgnz (cocOrd c c2 j) = if c = c2 then 1 else -1 := by
  by_cases h : c = c2
  · rw [cocOrd, if_pos h, if_pos h, sgnz, if_pos (by omega)]
  · rw [cocOrd, if_neg h, if_neg h, sgnz, if_neg (by omega), if_pos (by omega)]

/-- C4: Coordinate-change maps are mutually inverse: for any two valid
orientation labels `A` and `B` (three letters over `R,L,A,P,S,I`, covering
the three physical axes exactly once), both conversions succeed and the
matrix product `change_of_coordinates_map A B @ change_of_coordinates_map
B A` is the 4x4 identity. -/
theorem change_of_coordinates_inverse (A B : List Char)
    (hA : isValidLabel A = true) (hB : isValidLabel B = true) :
    ∃ M N : Mat4, change_of_coordinates_map A B = .ok M ∧
      change_of_coordinates_map B A = .ok N ∧ M * N = 1 := by
  obtain ⟨a0, a1, a2, rfl⟩ := isValidLabel_shape A hA
  obtain ⟨b0, b1, b2, rfl⟩ := isValidLabel_shape B hB
  obtain ⟨α0, α1, α2, ha0, ha1, ha2, hA01, hA02, hA12, hα0, hα1, hα2⟩ :=
    isValidLabel_parts a0 a1 a2 hA
  obtain ⟨β0, β1, β2, hb0, hb1, hb2, hB01, hB02, hB12, hβ0, hβ1, hβ2⟩ :=
    isValidLabel_parts b0 b1 b2 hB
  have hmemB : ∀ γ : ℕ, γ < 3 → ∃ j : Fin 3, ![β0, β1, β2] j = γ := by
    intro γ hγ
    have hd : γ = β0 ∨ γ = β1 ∨ γ = β2 := by omega
    rcases hd with h | h | h
    · exact ⟨0, h.symm⟩
    · exact ⟨1, h.symm⟩
    · exact ⟨2, h.symm⟩
  have hmemA : ∀ γ : ℕ, γ < 3 → ∃ i : Fin 3, ![α0, α1, α2] i = γ := by
    intro γ hγ
    have hd : γ = α0 ∨ γ = α1 ∨ γ = α2 := by omega
    rcases hd with h | h | h
    · exact ⟨0, h.symm⟩
    · exact ⟨1, h.symm⟩
    · exact ⟨2, h.symm⟩
  have hinjB : ∀ j j' : Fin 3, ![β0, β1, β2] j = ![β0, β1, β2] j' → j = j' := by
    intro j j' h
    fin_cases j <;> fin_cases j' <;>
      first
      | rfl
      | exact absurd h hB01
      | exact absurd h.symm hB01
      | exact absurd h hB02
      | exact absurd h.symm hB02
      | exact absurd h hB12
      | exact absurd h.symm hB12
  have hltA : ∀ i : Fin 3, ![α0, α1, α2] i < 3 := by
    intro i
    fin_cases i
    · exact hα0
    · exact hα1
    · exact hα2
  have hltB : ∀ j : Fin 3, ![β0, β1, β2] j < 3 := by
    intro j
    fin_cases j
    · exact hβ0
    · exact hβ1
    · exact hβ2
  obtain ⟨JA, hJA⟩ := Classical.axiomOfChoice
    (fun i : Fin 3 => hmemB (![α0, α1, α2] i) (hltA i))
  obtain ⟨JB, hJB⟩ := Classical.axiomOfChoice
    (fun j : Fin 3 => hmemA (![β0, β1, β2] j) (hltB j))
  have hcomp : ∀ j : Fin 3, JA (JB j) = j := by
    intro j
    apply hinjB
    rw [hJA (JB j), hJB j]
  have hm0 : matchAxis a0 [b0, b1, b2] 1
      = .ok (some (cocOrd a0 (![b0, b1, b2] (JA 0)) (JA 0))) :=
    matchAxis_found a0 α0 ha0 b0 b1 b2 β0 β1 β2 hb0 hb1 hb2
      hB01 hB02 hB12 (JA 0) (hJA 0)
  have hm1 : matchAxis a1 [b0, b1, b2] 1
      = .ok (some (cocOrd a1 (![b0, b1, b2] (JA 1)) (JA 1))) :=
    matchAxis_found a1 α1 ha1 b0 b1 b2 β0 β1 β2 hb0 hb1 hb2
      hB01 hB02 hB12 (JA 1) (hJA 1)
  have hm2 : matchAxis a2 [b0, b1, b2] 1
      = .ok (some (cocOrd a2 (![b0, b1, b2] (JA 2)) (JA 2))) :=
    matchAxis_found a2 α2 ha2 b0 b1 b2 β0 β1 β2 hb0 hb1 hb2
      hB01 hB02 hB12 (JA 2) (hJA 2)
  have hn0 : matchAxis b0 [a0, a1, a2] 1
      = .ok (some (cocOrd b0 (![a0, a1, a2] (JB 0)) (JB 0))) :=
    matchAxis_found b0 β0 hb0 a0 a1 a2 α0 α1 α2 ha0 ha1 ha2
      hA01 hA02 hA12 (JB 0) (hJB 0)
  have hn1 : matchAxis b1 [a0, a1, a2] 1
      = .ok (some (cocOrd b1 (![a0, a1, a2] (JB 1)) (JB 1))) :=
    matchAxis_found b1 β1 hb1 a0 a1 a2 α0 α1 α2 ha0 ha1 ha2
      hA01 hA02 hA12 (JB 1) (hJB 1)
  have hn2 : matchAxis b2 [a0, a1, a2] 1
      = .ok (some (cocOrd b2 (![a0, a1, a2] (JB 2)) (JB 2))) :=
    matchAxis_found b2 β2 hb2 a0 a1 a2 α0 α1 α2 ha0 ha1 ha2
      hA01 hA02 hA12 (JB 2) (hJB 2)
  have horderA : buildOrder [a0, a1, a2] [b0, b1, b2]
      = .ok [some (cocOrd a0 (![b0, b1, b2] (JA 0)) (JA 0)),
          some (cocOrd a1 (![b0, b1, b2] (JA 1)) (JA 1)),
          some (cocOrd a2 (![b0, b1, b2] (JA 2)) (JA 2))] := by
    simp [buildOrder, ha0, ha1, ha2, hm0, hm1, hm2]
  have horderB : buildOrder [b0, b1, b2] [a0, a1, a2]
      = .ok [some (cocOrd b0 (![a0, a1, a2] (JB 0)) (JB 0)),
          some (cocOrd b1 (![a0, a1, a2] (JB 1)) (JB 1)),
          some (cocOrd b2 (![a0, a1, a2] (JB 2)) (JB 2))] := by
    simp [buildOrder, hb0, hb1, hb2, hn0, hn1, hn2]
  have hfA : ![cocOrd a0 (![b0, b1, b2] (JA 0)) (JA 0),
        cocOrd a1 (![b0, b1, b2] (JA 1)) (JA 1),
        cocOrd a2 (![b0, b1, b2] (JA 2)) (JA 2)]
      = fun i => cocOrd (![a0, a1, a2] i) (![b0, b1, b2] (JA i)) (JA i) := by
    funext i
    fin_cases i <;> rfl
  have hfB : ![cocOrd b0 (![a0, a1, a2] (JB 0)) (JB 0),
        cocOrd b1 (![a0, a1, a2] (JB 1)) (JB 1),
        cocOrd b2 (![a0, a1, a2] (JB 2)) (JB 2)]
      = fun j => cocOrd (![b0, b1, b2] j) (![a0, a1, a2] (JB j)) (JB j) := by
    funext j
    fin_cases j <;> rfl
  have hcocA : change_of_coordinates_map [a0, a1, a2] [b0, b1, b2]
      = .ok (permColMat (fun i => (JA i : ℕ))
          * flipMat (fun i =>
              if ![a0, a1, a2] i = ![b0, b1, b2] (JA i) then 1 else -1)
            (fun _ => 0)) := by
    rw [change_of_coordinates_map]
    rw [horderA]
    show matrixOfOrder _ = _
    rw [matrixOfOrder]
    rw [if_pos ⟨by rw [cocOrd_natAbs]; have := (JA 0).isLt; omega,
      by rw [cocOrd_natAbs]; have := (JA 1).isLt; omega,
      by rw [cocOrd_natAbs]; have := (JA 2).isLt; omega⟩]
    rw [hfA]
    have hp : (fun i => ((fun i =>
        cocOrd (![a0, a1, a2] i) (![b0, b1, b2] (JA i)) (JA i)) i).natAbs - 1)
        = fun i : Fin 3 => (JA i : ℕ) := by
      funext i
      rw [cocOrd_natAbs]
      omega
    have hs : (fun i => sgnz ((fun i =>
        cocOrd (![a0, a1, a2] i) (![b0, b1, b2] (JA i)) (JA i)) i))
        = fun i : Fin 3 =>
            if ![a0, a1, a2] i = ![b0, b1, b2] (JA i) then (1 : ℤ) else -1 := by
      funext i
      rw [cocOrd_sgnz]
    rw [hp, hs]
  have hcocB : change_of_coordinates_map [b0, b1, b2] [a0, a1, a2]
      = .ok (permColMat (fun j => (JB j : ℕ))
          * flipMat (fun j =>
              if ![b0, b1, b2] j = ![a0, a1, a2] (JB j) then 1 else -1)
            (fun _ => 0)) := by
    rw [change_of_coordinates_map]
    rw [horderB]
    show matrixOfOrder _ = _
    rw [matrixOfOrder]
    rw [if_pos ⟨by rw [cocOrd_natAbs]; have := (JB 0).isLt; omega,
      by rw [cocOrd_natAbs]; have := (JB 1).isLt; omega,
      by rw [cocOrd_natAbs]; have := (JB 2).isLt; omega⟩]
    rw [hfB]
    have hp : (fun j => ((fun j =>
        cocOrd (![b0, b1, b2] j) (![a0, a1, a2] (JB j)) (JB j)) j).natAbs - 1)
        = fun j : Fin 3 => (JB j : ℕ) := by
      funext j
      rw [cocOrd_natAbs]
      omega
    have hs : (fun j => sgnz ((fun j =>
        cocOrd (![b0, b1, b2] j) (![a0, a1, a2] (JB j)) (JB j)) j))
        = fun j : Fin 3 =>
            if ![b0, b1, b2] j = ![a0, a1, a2] (JB j) then (1 : ℤ) else -1 := by
      funext j
      rw [cocOrd_sgnz]
    rw [hp, hs]
  refine ⟨_, _, hcocA, hcocB, ?_⟩
  apply permFlip_mul _ _ _ _ (fun j => (JB j).isLt)
  · intro c
    have : (⟨((JB c : ℕ)), (JB c).isLt⟩ : Fin 3) = JB c := rfl
    rw [this, hcomp c]
  · intro c
    have he : (⟨((JB c : ℕ)), (JB c).isLt⟩ : Fin 3) = JB c := rfl
    rw [he, hcomp c]
    by_cases h : ![a0, a1, a2] (JB c) = ![b0, b1, b2] c
    · rw [if_pos h, if_pos h.symm, one_mul]
    · rw [if_neg h, if_neg (fun hv => h hv.symm)]
      norm_num

/-- Witness for C4: the inverse theorem applied at the labels "RAS" and
"LIA". -/
theorem change_of_coordinates_inverse_witness :
    isValidLabel ['R', 'A', 'S'] = true ∧
      isValidLabel ['L', 'I', 'A'] = true ∧
      ∃ M N : Mat4,
        change_of_coordinates_map ['R', 'A', 'S'] ['L', 'I', 'A'] = .ok M ∧
        change_of_coordinates_map ['L', 'I', 'A'] ['R', 'A', 'S'] = .ok N ∧
        M * N = 1 :=
  ⟨by decide, by decide,
    change_of_coordinates_inverse ['R', 'A', 'S'] ['L', 'I', 'A']
      (by decide) (by decide)⟩

theorem buildOrder_invalid (cin cout : List Char)
    (h : ∃ c ∈ cin, axisIdx c = none) :
    ∃ e, buildOrder cin cout = .error e := by
  induction cin with
  | nil => simp at h
  | cons c rest ih =>
    obtain ⟨d, hd, hnone⟩ := h
    rcases List.mem_cons.mp hd with rfl | hdr
    · exact ⟨.invalidLabel d, by simp [buildOrder, hnone]⟩
    · cases hc : axisIdx c with
      | none => exact ⟨.invalidLabel c, by simp [buildOrder, hc]⟩
      | some a =>
        cases hm : matchAxis c cout 1 with
        | error e => exact ⟨e, by simp [buildOrder, hc, hm]⟩
        | ok o =>
          obtain ⟨e, he⟩ := ih ⟨d, hdr, hnone⟩
          exact ⟨e, by simp [buildOrder, hc, hm, he]⟩

theorem matchAxis_unmatched (c1 : Char) (cout : List Char) (idx : ℕ)
    (hne : cout ≠ [])
    (hval : ∀ c ∈ cout, (axisIdx c).isSome = true)
    (hnom : ∀ c ∈ cout, axisIdx c ≠ axisIdx c1) :
    matchAxis c1 cout idx = .error .unmatched := by
  induction cout generalizing idx with
  | nil => exact absurd rfl hne
  | cons c2 rest ih =>
    obtain ⟨a2, ha2⟩ := Option.isSome_iff_exists.mp
      (hval c2 (List.mem_cons_self c2 rest))
    have hcond : ¬(axisIdx c1 = some a2) := by
      intro hv
      exact hnom c2 (List.mem_cons_self c2 rest) (by rw [ha2, hv])
    by_cases hrest : rest = []
    · subst hrest
      simp [matchAxis, ha2, hcond]
    · have hrec := ih (idx + 1) hrest
        (fun c hc => hval c (List.mem_cons_of_mem _ hc))
        (fun c hc => hnom c (List.mem_cons_of_mem _ hc))
      simp [matchAxis, ha2, hcond, hrest, hrec]

theorem matchAxis_ok (c1 : Char) (cout : List Char) (idx : ℕ)
    (hval : ∀ c ∈ cout, (axisIdx c).isSome = true)
    (hmatch : ∃ c ∈ cout, axisIdx c = axisIdx c1) :
    ∃ o : ℤ, matchAxis c1 cout idx = .ok (some o) := by
  induction cout generalizing idx with
  | nil => simp at hmatch
  | cons c2 rest ih =>
    obtain ⟨a2, ha2⟩ := Option.isSome_iff_exists.mp
      (hval c2 (List.mem_cons_self c2 rest))
    by_cases hcond : axisIdx c1 = some a2
    · exact ⟨if c1 = c2 then (idx : ℤ) else -(idx : ℤ),
        by simp [matchAxis, ha2, hcond]⟩
    · have hrest : ∃ c ∈ rest, axisIdx c = axisIdx c1 := by
        obtain ⟨d, hd, hda⟩ := hmatch
        rcases List.mem_cons.mp hd with rfl | hdr
        · exact absurd (by rw [← hda]; exact ha2) hcond
        · exact ⟨d, hdr, hda⟩
      have hrne : rest ≠ [] := by
        obtain ⟨d, hd, _⟩ := hrest
        intro hemp
        rw [hemp] at hd
        simp at hd
      obtain ⟨o, ho⟩ := ih (idx + 1)
        (fun c hc => hval c (List.mem_cons_of_mem _ hc)) hrest
      exact ⟨o, by simp [matchAxis, ha2, hcond, hrne, ho]⟩

theorem buildOrder_unmatched (cin cout : List Char) (hne : cout ≠ [])
    (hvin : ∀ c ∈ cin, (axisIdx c).isSome = true)
    (hvout : ∀ c ∈ cout, (axisIdx c).isSome = true)
    (hun : ∃ c ∈ cin, ∀ d ∈ cout, axisIdx d ≠ axisIdx c) :
    buildOrder cin cout = .error .unmatched := by
  induction cin with
  | nil => simp at hun
  | cons c rest ih =>
    obtain ⟨a, ha⟩ := Option.isSome_iff_exists.mp
      (hvin c (List.mem_cons_self c rest))
    by_cases hx : ∀ d ∈ cout, axisIdx d ≠ axisIdx c
    · have hmu := matchAxis_unmatched c cout 1 hne hvout hx
      simp [buildOrder, ha, hmu]
    · push_neg at hx
      obtain ⟨d, hd, hda⟩ := hx
      obtain ⟨o, ho⟩ := matchAxis_ok c cout 1 hvout ⟨d, hd, hda⟩
      have hrest : ∃ c' ∈ rest, ∀ d ∈ cout, axisIdx d ≠ axisIdx c' := by
        obtain ⟨c', hc', hall⟩ := hun
        rcases List.mem_cons.mp hc' with rfl | hcr
        · exact absurd hda (hall d hd)
        · exact ⟨c', hcr, hall⟩
      have hbo := ih (fun c' hc' => hvin c' (List.mem_cons_of_mem _ hc'))
        hrest
      simp [buildOrder, ha, ho, hbo]

/-- C5 amended: an invalid character anywhere in `from_label` always
makes `change_of_coordinates_map` fail; and when both labels consist of
valid characters, `to_label` is non-empty, and some `from_label`
character has no same-axis character in `to_label`, it fails with the
unmatched-axis error.  (As stated, C5 is false: an invalid character of
`to_label` sitting after every match position is never scanned, see the
counterexample.) -/
theorem change_of_coordinates_errors :
    (∀ cin cout : List Char, (∃ c ∈ cin, axisIdx c = none) →
      ∃ e, change_of_coordinates_map cin cout = .error e) ∧
    (∀ cin cout : List Char, cout ≠ [] →
      (∀ c ∈ cin, (axisIdx c).isSome = true) →
      (∀ c ∈ cout, (axisIdx c).isSome = true) →
      (∃ c ∈ cin, ∀ d ∈ cout, axisIdx d ≠ axisIdx c) →
      change_of_coordinates_map cin cout = .error .unmatched) := by
  constructor
  · intro cin cout h
    obtain ⟨e, he⟩ := buildOrder_invalid cin cout h
    exact ⟨e, by simp [change_of_coordinates_map, he]⟩
  · intro cin cout hne hvin hvout hun
    have hbo := buildOrder_unmatched cin cout hne hvin hvout hun
    simp [change_of_coordinates_map, hbo]

/-- Witness for C5 (amended): a from-label containing the invalid
character 'X' fails, and a from-label whose 'S' axis is missing from the
to-label fails with the unmatched-axis error. -/
theorem change_of_coordinates_errors_witness :
    (∃ e, change_of_coordinates_map ['X', 'R', 'S'] ['R', 'A', 'S']
        = .error e) ∧
      change_of_coordinates_map ['R', 'A', 'S'] ['R', 'A', 'L']
        = .error .unmatched :=
  ⟨change_of_coordinates_errors.1 ['X', 'R', 'S'] ['R', 'A', 'S']
      (by decide),
    change_of_coordinates_errors.2 ['R', 'A', 'S'] ['R', 'A', 'L']
      (by decide) (by decide) (by decide) (by decide)⟩

/-- Counterexample to C5 as stated: 'X' is outside the axis alphabet,
yet `change_of_coordinates_map("RAS", "RASX")` raises nothing and
silently returns a matrix (the identity): the inner loop breaks at each
match before ever scanning the trailing 'X'. -/
theorem change_of_coordinates_invalid_not_detected :
    axisIdx 'X' = none ∧
      change_of_coordinates_map ['R', 'A', 'S'] ['R', 'A', 'S', 'X']
        = .ok 1 := by
  constructor
  · decide
  · have hb : buildOrder ['R', 'A', 'S'] ['R', 'A', 'S', 'X']
        = .ok [some 1, some 2, some 3] := by decide
    rw [change_of_coordinates_map, hb]
    show matrixOfOrder [some 1, some 2, some 3] = .ok 1
    rw [matrixOfOrder, if_pos (by decide)]
    congr 1
    ext r c
    rw [permFlip_apply]
    fin_cases r <;> fin_cases c <;> decide

/-- C10: `change_of_coordinates_map` accepts a label repeating a
same-axis letter without raising: `("RRS", "RAS")` silently returns a
4x4 matrix whose linear 3x3 block has two identical columns and is
therefore singular (determinant zero). -/
theorem change_of_coordinates_repeated_letter :
    change_of_coordinates_map ['R', 'R', 'S'] ['R', 'A', 'S']
        = .ok !![1, 1, 0, 0; 0, 0, 0, 0; 0, 0, 1, 0; 0, 0, 0, 1] ∧
      (∀ i : Fin 3,
        linPart !![1, 1, 0, 0; 0, 0, 0, 0; 0, 0, 1, 0; 0, 0, 0, 1] i 0
          = linPart !![1, 1, 0, 0; 0, 0, 0, 0; 0, 0, 1, 0; 0, 0, 0, 1] i 1) ∧
      Matrix.det
          (linPart !![1, 1, 0, 0; 0, 0, 0, 0; 0, 0, 1, 0; 0, 0, 0, 1])
        = 0 := by
  refine ⟨?_, by decide, ?_⟩
  · have hb : buildOrder ['R', 'R', 'S'] ['R', 'A', 'S']
        = .ok [some 1, some 1, some 3] := by decide
    rw [change_of_coordinates_map, hb]
    show matrixOfOrder [some 1, some 1, some 3] = _
    rw [matrixOfOrder, if_pos (by decide)]
    congr 1
    ext r c
    rw [permFlip_apply]
    fin_cases r <;> fin_cases c <;> decide
  · have hlin : linPart !![1, 1, 0, 0; 0, 0, 0, 0; 0, 0, 1, 0; 0, 0, 0, 1]
        = !![1, 1, 0; 0, 0, 0; 0, 0, 1] := by decide
    rw [hlin, Matrix.det_fin_three]
    norm_num

theorem castSucc_mk_eta (m : Fin 3) (h : ((m.castSucc : Fin 4) : ℕ) < 3) :
    (⟨((m.castSucc : Fin 4) : ℕ), h⟩ : Fin 3) = m :=
  Fin.ext (by rw [Fin.coe_castSucc])

theorem flipMat_isAffine (s off : Fin 3 → ℤ) : IsAffine (flipMat s off) := by
  intro j
  rw [flipMat]
  simp only [Matrix.of_apply]
  rw [dif_neg (by decide)]
  by_cases hj : j = 3
  · rw [if_pos (show (j : ℕ) = 3 by rw [hj]; decide), if_pos hj]
  · rw [if_neg (show ¬((j : ℕ) = 3) from fun hv => hj (Fin.ext hv)),
      if_neg hj]

theorem permMat_isAffine (p : Fin 3 → Fin 3) : IsAffine (permMat p) := by
  intro j
  rw [permMat]
  simp only [Matrix.of_apply]
  rw [dif_neg (by decide)]
  by_cases hj : j = 3
  · rw [if_pos (show (j : ℕ) = 3 by rw [hj]; decide), if_pos hj]
  · rw [if_neg (show ¬((j : ℕ) = 3) from fun hv => hj (Fin.ext hv)),
      if_neg hj]

theorem apply_affine_mul (M N : Mat4) (hN : IsAffine N) (x : Fin 3 → ℚ) :
    apply_affine (M * N) x = apply_affine M (apply_affine N x) := by
  funext i
  rw [apply_affine_eq_mulVec, apply_affine_eq_mulVec, ← mulVec_homog N hN,
    Matrix.mulVec_mulVec]

theorem apply_affine_flipMat (s off : Fin 3 → ℤ) (x : Fin 3 → ℚ) :
    apply_affine (flipMat s off) x
      = fun m => (s m : ℚ) * x m + (off m : ℚ) := by
  funext m
  rw [apply_affine]
  have hm3 : ((m.castSucc : Fin 4) : ℕ) < 3 := by
    rw [Fin.coe_castSucc]
    exact m.isLt
  have hsum : ∑ j : Fin 3, flipMat s off m.castSucc j.castSucc * x j
      = (s m : ℚ) * x m := by
    rw [Finset.sum_eq_single m]
    · rw [flipMat]
      simp only [Matrix.of_apply]
      rw [dif_pos hm3, castSucc_mk_eta m hm3]
      simp
    · intro k _ hk
      rw [flipMat]
      simp only [Matrix.of_apply]
      rw [dif_pos hm3,
        if_neg (show ¬(((k.castSucc : Fin 4) : ℕ) = ((m.castSucc : Fin 4) : ℕ))
          from fun hv => hk (Fin.ext (by simpa using hv))),
        if_neg (show ¬(((k.castSucc : Fin 4) : ℕ) = 3) from by
          rw [Fin.coe_castSucc]
          have := k.isLt
          omega),
        zero_mul]
    · intro hm
      exact absurd (Finset.mem_univ _) hm
  rw [hsum]
  congr 1
  rw [flipMat]
  simp only [Matrix.of_apply]
  rw [dif_pos hm3,
    if_neg (show ¬(((3 : Fin 4) : ℕ) = ((m.castSucc : Fin 4) : ℕ)) from by
      rw [Fin.coe_castSucc]
      have := m.isLt
      simp only [show ((3 : Fin 4) : ℕ) = 3 from rfl]
      omega),
    if_pos (show ((3 : Fin 4) : ℕ) = 3 from rfl), castSucc_mk_eta m hm3]

theorem apply_affine_permMat (p : Fin 3 → Fin 3) (x : Fin 3 → ℚ) :
    apply_affine (permMat p) x = fun m => x (p m) := by
  funext m
  rw [apply_affine]
  have hm3 : ((m.castSucc : Fin 4) : ℕ) < 3 := by
    rw [Fin.coe_castSucc]
    exact m.isLt
  have hbias : permMat p m.castSucc 3 = 0 := by
    rw [permMat]
    simp only [Matrix.of_apply]
    rw [dif_pos hm3]
    rw [if_neg (show ¬(((3 : Fin 4) : ℕ) = (p ⟨(m.castSucc : ℕ), hm3⟩ : ℕ))
      from by
        rw [castSucc_mk_eta m hm3]
        simp only [show ((3 : Fin 4) : ℕ) = 3 from rfl]
        have := (p m).isLt
        omega)]
  rw [hbias, add_zero]
  rw [Finset.sum_eq_single (p m)]
  · rw [permMat]
    simp only [Matrix.of_apply]
    rw [dif_pos hm3,
      if_pos (show (((p m).castSucc : Fin 4) : ℕ)
          = (p ⟨(m.castSucc : ℕ), hm3⟩ : ℕ)
        from by rw [Fin.coe_castSucc, castSucc_mk_eta m hm3]),
      one_mul]
  · intro k _ hk
    rw [permMat]
    simp only [Matrix.of_apply]
    rw [dif_pos hm3,
      if_neg (show ¬(((k.castSucc : Fin 4) : ℕ)
          = (p ⟨(m.castSucc : ℕ), hm3⟩ : ℕ))
        from by
          rw [Fin.coe_castSucc, castSucc_mk_eta m hm3]
          intro hv
          exact hk (Fin.ext hv)),
      zero_mul]
  · intro hm
    exact absurd (Finset.mem_univ _) hm

theorem flipMat_entry (s off : Fin 3 → ℤ) (k : Fin 3) (j : Fin 4) :
    flipMat s off k.castSucc j
      = if (j : ℕ) = (k : ℕ) then (s k : ℚ)
        else if (j : ℕ) = 3 then (off k : ℚ) else 0 := by
  have hk3 : ((k.castSucc : Fin 4) : ℕ) < 3 := by
    rw [Fin.coe_castSucc]
    exact k.isLt
  rw [flipMat]
  simp only [Matrix.of_apply]
  rw [dif_pos hk3, castSucc_mk_eta k hk3, Fin.coe_castSucc]

theorem permMat_entry (p : Fin 3 → Fin 3) (k : Fin 3) (j : Fin 4) :
    permMat p k.castSucc j = if (j : ℕ) = (p k : ℕ) then 1 else 0 := by
  have hk3 : ((k.castSucc : Fin 4) : ℕ) < 3 := by
    rw [Fin.coe_castSucc]
    exact k.isLt
  rw [permMat]
  simp only [Matrix.of_apply]
  rw [dif_pos hk3, castSucc_mk_eta k hk3]

theorem fin3_cover : ∀ a b c k : Fin 3,
    a = k ∨ b = k ∨ c = k ∨ a = b ∨ a = c ∨ b = c := by decide

theorem fin3_inj : ∀ a b c x y : Fin 3,
    (a = b ∨ a = c ∨ b = c) ∨ ¬(![a, b, c] x = ![a, b, c] y) ∨ x = y := by
  decide

theorem pinv_spec (p : Fin 3 → Fin 3) (h01 : p 0 ≠ p 1) (h02 : p 0 ≠ p 2)
    (h12 : p 1 ≠ p 2) (k : Fin 3) : p (pinv p k) = k := by
  rw [pinv]
  by_cases h0 : p 0 = k
  · rw [if_pos h0]
    exact h0
  · rw [if_neg h0]
    by_cases h1 : p 1 = k
    · rw [if_pos h1]
      exact h1
    · rw [if_neg h1]
      by_cases h2 : p 2 = k
      · rw [if_pos h2]
        exact h2
      · rcases fin3_cover (p 0) (p 1) (p 2) k with hx | hx | hx | hx | hx | hx
        · exact absurd hx h0
        · exact absurd hx h1
        · exact absurd hx h2
        · exact absurd hx h01
        · exact absurd hx h02
        · exact absurd hx h12

theorem pinv_left (p : Fin 3 → Fin 3) (h01 : p 0 ≠ p 1) (h02 : p 0 ≠ p 2)
    (h12 : p 1 ≠ p 2) (m : Fin 3) : pinv p (p m) = m := by
  rcases fin3_inj (p 0) (p 1) (p 2) (pinv p (p m)) m with hx | hx | hx
  · rcases hx with hx | hx | hx
    · exact absurd hx h01
    · exact absurd hx h02
    · exact absurd hx h12
  · refine absurd ?_ hx
    rw [vec3_eta p]
    exact pinv_spec p h01 h02 h12 (p m)
  · exact hx

theorem linPart_mul_flipMat (M : Mat4) (s off : Fin 3 → ℤ) (i j : Fin 3) :
    linPart (M * flipMat s off) i j = linPart M i j * (s j : ℚ) := by
  simp only [linPart, Matrix.of_apply]
  rw [Matrix.mul_apply, Fin.sum_univ_castSucc]
  have hIA : ∀ u : Fin 4, flipMat s off 3 u = if u = 3 then 1 else 0 :=
    flipMat_isAffine s off
  have hlast : flipMat s off (Fin.last 3) j.castSucc = 0 := by
    have h3 : (Fin.last 3 : Fin 4) = 3 := by decide
    rw [h3, hIA j.castSucc,
      if_neg (Fin.ne_of_val_ne
        (show ((j.castSucc : Fin 4) : ℕ) ≠ (((3 : Fin 4)) : ℕ) from by
          rw [Fin.coe_castSucc, show (((3 : Fin 4)) : ℕ) = 3 from rfl]
          have hj := j.isLt
          omega))]
  rw [hlast, mul_zero, add_zero]
  rw [Finset.sum_eq_single j]
  · rw [flipMat_entry,
      if_pos (show ((j.castSucc : Fin 4) : ℕ) = (j : ℕ) from
        Fin.coe_castSucc j)]
  · intro k _ hk
    rw [flipMat_entry,
      if_neg (show ¬(((j.castSucc : Fin 4) : ℕ) = (k : ℕ)) from fun hv => by
        rw [Fin.coe_castSucc] at hv
        exact hk (Fin.ext hv).symm),
      if_neg (show ¬(((j.castSucc : Fin 4) : ℕ) = 3) from by
        rw [Fin.coe_castSucc]
        have := j.isLt
        omega),
      mul_zero]
  · intro hm
    exact absurd (Finset.mem_univ _) hm

theorem linPart_mul_permMat (M : Mat4) (p : Fin 3 → Fin 3)
    (h01 : p 0 ≠ p 1) (h02 : p 0 ≠ p 2) (h12 : p 1 ≠ p 2) (i j : Fin 3) :
    linPart (M * permMat p) i j = linPart M i (pinv p j) := by
  simp only [linPart, Matrix.of_apply]
  rw [Matrix.mul_apply, Fin.sum_univ_castSucc]
  have hIA : ∀ u : Fin 4, permMat p 3 u = if u = 3 then 1 else 0 :=
    permMat_isAffine p
  have hlast : permMat p (Fin.last 3) j.castSucc = 0 := by
    have h3 : (Fin.last 3 : Fin 4) = 3 := by decide
    rw [h3, hIA j.castSucc,
      if_neg (Fin.ne_of_val_ne
        (show ((j.castSucc : Fin 4) : ℕ) ≠ (((3 : Fin 4)) : ℕ) from by
          rw [Fin.coe_castSucc, show (((3 : Fin 4)) : ℕ) = 3 from rfl]
          have hj := j.isLt
          omega))]
  rw [hlast, mul_zero, add_zero]
  rw [Finset.sum_eq_single (pinv p j)]
  · rw [permMat_entry,
      if_pos (show ((j.castSucc : Fin 4) : ℕ) = (p (pinv p j) : ℕ) from by
        rw [Fin.coe_castSucc, pinv_spec p h01 h02 h12 j]),
      mul_one]
  · intro k _ hk
    have hne : ¬(((j.castSucc : Fin 4) : ℕ) = (p k : ℕ)) := by
      rw [Fin.coe_castSucc]
      intro hv
      apply hk
      have hpk : p k = j := Fin.ext hv.symm
      rw [← hpk, pinv_left p h01 h02 h12 k]
    rw [permMat_entry, if_neg hne, mul_zero]
  · intro hm
    exact absurd (Finset.mem_univ _) hm

theorem sgnq_pos (a : ℚ) (h : 0 < a) : sgnq a = 1 := by
  rw [sgnq, if_pos h]

theorem sgnq_neg1 (a : ℚ) (h : a < 0) : sgnq a = -1 := by
  rw [sgnq, if_neg (not_lt.mpr h.le), if_pos h]

theorem sgnq_zero : sgnq 0 = 0 := by
  rw [sgnq, if_neg (lt_irrefl 0), if_neg (lt_irrefl 0)]

theorem sgnq_ne_zero (a : ℚ) (h : sgnq a ≠ 0) : a ≠ 0 := by
  intro ha
  rw [ha, sgnq_zero] at h
  exact h rfl

theorem sgnq_mul_sgnq (a : ℚ) (h : sgnq a ≠ 0) :
    sgnq (a * ((sgnq a : ℤ) : ℚ)) = 1 := by
  rcases lt_trichotomy 0 a with hpos | heq | hneg
  · rw [sgnq_pos a hpos]
    push_cast
    rw [mul_one]
    exact sgnq_pos a hpos
  · exact absurd heq.symm (sgnq_ne_zero a h)
  · rw [sgnq_neg1 a hneg]
    push_cast
    rw [mul_neg_one]
    exact sgnq_pos _ (by linarith)

theorem reorientFlip_vals (T : Mat4) (j : Fin 3) :
    reorientFlip T j = 1 ∨ reorientFlip T j = -1 ∨ reorientFlip T j = 0 := by
  simp only [reorientFlip, sgnq]
  split_ifs <;> simp

theorem reorientFlip_sq (T : Mat4) (j : Fin 3)
    (h : reorientFlip T j ≠ 0) :
    reorientFlip T j * reorientFlip T j = 1 := by
  rcases reorientFlip_vals T j with hv | hv | hv
  · rw [hv]
    decide
  · rw [hv]
    decide
  · exact absurd hv h

theorem reorientOff_pos {α : Type _} (d : MRIData α) (m : Fin 3)
    (hm : reorientFlip d.affine m = 1) : reorientOff d m = 0 := by
  simp only [reorientOff, hm]
  rw [show ((1 - (1 : ℤ)) / 2) = 0 from by decide, zero_mul]

theorem reorientOff_neg {α : Type _} (d : MRIData α) (m : Fin 3)
    (hm : reorientFlip d.affine m = -1) :
    reorientOff d m = (d.shape m : ℤ) - 1 := by
  simp only [reorientOff, hm]
  rw [show ((1 - (-1 : ℤ)) / 2) = 1 from by decide, one_mul]

theorem reorient_index_eq {α : Type _} (d : MRIData α) (v : Fin 3 → ℤ)
    (hf : ∀ m, reorientFlip d.affine m ≠ 0)
    (hp01 : reorientPerm d.affine 0 ≠ reorientPerm d.affine 1)
    (hp02 : reorientPerm d.affine 0 ≠ reorientPerm d.affine 2)
    (hp12 : reorientPerm d.affine 1 ≠ reorientPerm d.affine 2)
    (m : Fin 3) :
    reorientFlip d.affine m
        * reorientInvIdx d v (reorientPerm d.affine m)
      + reorientOff d m = v m := by
  simp only [reorientInvIdx]
  rw [pinv_left _ hp01 hp02 hp12 m, ← mul_assoc,
    reorientFlip_sq d.affine m (hf m), one_mul]
  omega

theorem flipMat_eq_one : flipMat (fun _ => 1) (fun _ => 0) = 1 := by
  funext i j
  rw [flipMat]
  simp only [Matrix.of_apply]
  by_cases hi : (i : ℕ) < 3
  · rw [dif_pos hi]
    by_cases hij : (j : ℕ) = (i : ℕ)
    · rw [if_pos hij, show j = i from Fin.ext hij, Matrix.one_apply_eq]
      exact Int.cast_one
    · rw [if_neg hij,
        Matrix.one_apply_ne (show i ≠ j from fun hv => hij (by rw [hv]))]
      by_cases hj3 : (j : ℕ) = 3
      · rw [if_pos hj3]
        exact Int.cast_zero
      · rw [if_neg hj3]
  · rw [dif_neg hi]
    have hi3 : (i : ℕ) = 3 := by
      have := i.isLt
      omega
    by_cases hj3 : (j : ℕ) = 3
    · rw [if_pos hj3, show i = j from Fin.ext (by rw [hi3, hj3]),
        Matrix.one_apply_eq]
    · rw [if_neg hj3,
        Matrix.one_apply_ne
          (show i ≠ j from fun hv => hj3 (by rw [← hv, hi3]))]

theorem permMat_eq_one : permMat (fun k => k) = 1 := by
  funext i j
  rw [permMat]
  simp only [Matrix.of_apply]
  by_cases hi : (i : ℕ) < 3
  · rw [dif_pos hi]
    by_cases hij : (j : ℕ) = (i : ℕ)
    · rw [if_pos (show (j : ℕ) = (((⟨(i : ℕ), hi⟩ : Fin 3)) : ℕ) from hij),
        show j = i from Fin.ext hij, Matrix.one_apply_eq]
    · rw [if_neg
          (show ¬((j : ℕ) = (((⟨(i : ℕ), hi⟩ : Fin 3)) : ℕ)) from hij),
        Matrix.one_apply_ne (show i ≠ j from fun hv => hij (by rw [hv]))]
  · rw [dif_neg hi]
    have hi3 : (i : ℕ) = 3 := by
      have := i.isLt
      omega
    by_cases hj3 : (j : ℕ) = 3
    · rw [if_pos hj3, show i = j from Fin.ext (by rw [hi3, hj3]),
        Matrix.one_apply_eq]
    · rw [if_neg hj3,
        Matrix.one_apply_ne
          (show i ≠ j from fun hv => hj3 (by rw [← hv, hi3]))]

theorem data_reorientation_some {α : Type _} (d r : MRIData α)
    (h : data_reorientation d = some r) :
    ((reorientFlip d.affine 0 ≠ 0 ∧ reorientFlip d.affine 1 ≠ 0 ∧
        reorientFlip d.affine 2 ≠ 0) ∧
      (reorientPerm d.affine 0 ≠ reorientPerm d.affine 1 ∧
        reorientPerm d.affine 0 ≠ reorientPerm d.affine 2 ∧
        reorientPerm d.affine 1 ≠ reorientPerm d.affine 2)) ∧
    r = { shape := fun k => d.shape (pinv (reorientPerm d.affine) k)
          extra := d.extra
          data := fun v => d.data fun m =>
            reorientFlip d.affine m * v (reorientPerm d.affine m)
              + reorientOff d m
          affine := d.affine
            * flipMat (reorientFlip d.affine) (reorientOff d)
            * permMat (reorientPerm d.affine) } := by
  rw [data_reorientation] at h
  split_ifs at h with hc
  exact ⟨hc, (Option.some_inj.mp h).symm⟩

theorem data_reorientation_fixed {α : Type _} (d r : MRIData α)
    (h : data_reorientation d = some r) : data_reorientation r = some r := by
  obtain ⟨⟨⟨hf0, hf1, hf2⟩, hp01, hp02, hp12⟩, hr⟩ :=
    data_reorientation_some d r h
  have hf : ∀ m, reorientFlip d.affine m ≠ 0 := by
    intro m
    fin_cases m
    · exact hf0
    · exact hf1
    · exact hf2
  have haff : r.affine
      = d.affine * flipMat (reorientFlip d.affine) (reorientOff d)
        * permMat (reorientPerm d.affine) := by
    rw [hr]
  have hA : ∀ i j, linPart r.affine i j
      = linPart d.affine i (pinv (reorientPerm d.affine) j)
        * ((reorientFlip d.affine (pinv (reorientPerm d.affine) j) : ℤ)
          : ℚ) := by
    intro i j
    rw [haff, linPart_mul_permMat _ _ hp01 hp02 hp12, linPart_mul_flipMat]
  have hperm : ∀ j, reorientPerm r.affine j = j := by
    intro j
    have habs : (fun i => |linPart r.affine i j|)
        = fun i =>
          |linPart d.affine i (pinv (reorientPerm d.affine) j)| := by
      funext i
      rw [hA i j, abs_mul]
      rcases reorientFlip_vals d.affine (pinv (reorientPerm d.affine) j)
        with hv | hv | hv
      · rw [hv]
        norm_num
      · rw [hv]
        norm_num
      · exact absurd hv (hf _)
    show argmax3 (fun i => |linPart r.affine i j|) = j
    rw [habs]
    show reorientPerm d.affine (pinv (reorientPerm d.affine) j) = j
    exact pinv_spec _ hp01 hp02 hp12 j
  have hflip : ∀ j, reorientFlip r.affine j = 1 := by
    intro j
    have hsj : reorientFlip d.affine (pinv (reorientPerm d.affine) j)
        = sgnq (linPart d.affine j (pinv (reorientPerm d.affine) j)) := by
      show sgnq (linPart d.affine
          (reorientPerm d.affine (pinv (reorientPerm d.affine) j))
          (pinv (reorientPerm d.affine) j)) = _
      rw [pinv_spec _ hp01 hp02 hp12 j]
    have hne :
        sgnq (linPart d.affine j (pinv (reorientPerm d.affine) j)) ≠ 0 := by
      rw [← hsj]
      exact hf _
    show sgnq (linPart r.affine (reorientPerm r.affine j) j) = 1
    rw [hperm j, hA j j, hsj]
    exact sgnq_mul_sgnq _ hne
  have hoff : ∀ j, reorientOff r j = 0 := fun j =>
    reorientOff_pos r j (hflip j)
  have hcond : (reorientFlip r.affine 0 ≠ 0 ∧ reorientFlip r.affine 1 ≠ 0 ∧
      reorientFlip r.affine 2 ≠ 0) ∧
      (reorientPerm r.affine 0 ≠ reorientPerm r.affine 1 ∧
        reorientPerm r.affine 0 ≠ reorientPerm r.affine 2 ∧
        reorientPerm r.affine 1 ≠ reorientPerm r.affine 2) :=
    ⟨⟨by rw [hflip 0]; decide, by rw [hflip 1]; decide,
        by rw [hflip 2]; decide⟩,
      by rw [hperm 0, hperm 1]; decide, by rw [hperm 0, hperm 2]; decide,
      by rw [hperm 1, hperm 2]; decide⟩
  rw [data_reorientation, if_pos hcond]
  refine congrArg some (MRIData.ext ?_ ?_ ?_ ?_)
  · show (fun k => r.shape (pinv (reorientPerm r.affine) k)) = r.shape
    funext k
    have hpk : pinv (reorientPerm r.affine) k = k := by
      rw [pinv, hperm 0, hperm 1, hperm 2]
      fin_cases k <;> decide
    rw [hpk]
  · rfl
  · show (fun w => r.data fun m =>
        reorientFlip r.affine m * w (reorientPerm r.affine m)
          + reorientOff r m) = r.data
    funext w
    congr 1
    funext m
    rw [hflip m, hperm m, hoff m, one_mul, add_zero]
  · show r.affine * flipMat (reorientFlip r.affine) (reorientOff r)
        * permMat (reorientPerm r.affine) = r.affine
    have hsF : reorientFlip r.affine = fun _ => (1 : ℤ) := funext hflip
    have hoF : reorientOff r = fun _ => (0 : ℤ) := funext hoff
    have hpF : reorientPerm r.affine = fun k => k := funext hperm
    rw [hsF, hoF, hpF, flipMat_eq_one, permMat_eq_one, mul_one, mul_one]

/-- C2: reorientation is idempotent.  Reapplying `data_reorientation` to
the result of a successful call changes nothing — the already-canonical
dataset is returned unchanged, data, shape and affine alike — and when
the first call fails the composition fails the same way. -/
theorem data_reorientation_idempotent {α : Type _} (d : MRIData α) :
    (data_reorientation d).bind data_reorientation = data_reorientation d := by
  cases hd : data_reorientation d with
  | none => rfl
  | some r =>
    show data_reorientation r = some r
    exact data_reorientation_fixed d r hd

theorem dW_det : dW.affine.det = 30 := by
  show (!![(0 : ℚ), 2, 0, 1; -3, 0, 0, 0; 0, 0, 5, 2; 0, 0, 0, 1]).det = 30
  rw [det4_of]
  norm_num

theorem dBad_det : dBad.affine.det = 2 := by
  show (!![(2 : ℚ), 3, 0, 0; 0, 1, 0, 0; 0, 0, 1, 0; 0, 0, 0, 1]).det = 2
  rw [det4_of]
  norm_num

/-- C1 (amended): when `data_reorientation` succeeds on a dataset with an
invertible affine, every in-range voxel index `v` of the original array
has a corresponding in-range index `w` of the reoriented array holding
the same data value, and the two affines map `w` and `v` to exactly the
same physical coordinate.  The function does not succeed on every
invertible affine: `data_reorientation_not_total_on_invertible` exhibits
an invertible affine on which it raises instead. -/
theorem data_reorientation_preserves_mapping {α : Type _} (d r : MRIData α)
    (hdet : d.affine.det ≠ 0) (h : data_reorientation d = some r)
    (v : Fin 3 → ℤ) (hv : ∀ m, 0 ≤ v m ∧ v m < (d.shape m : ℤ)) :
    ∃ w : Fin 3 → ℤ,
      (∀ k, 0 ≤ w k ∧ w k < (r.shape k : ℤ)) ∧
      r.data w = d.data v ∧
      apply_affine_idx r.affine w = apply_affine_idx d.affine v := by
  obtain ⟨⟨⟨hf0, hf1, hf2⟩, hp01, hp02, hp12⟩, hr⟩ :=
    data_reorientation_some d r h
  have hf : ∀ m, reorientFlip d.affine m ≠ 0 := by
    intro m
    fin_cases m
    · exact hf0
    · exact hf1
    · exact hf2
  refine ⟨reorientInvIdx d v, ?_, ?_, ?_⟩
  · intro k
    have hsh : r.shape k = d.shape (pinv (reorientPerm d.affine) k) := by
      rw [hr]
    have hvk := hv (pinv (reorientPerm d.affine) k)
    rw [hsh]
    simp only [reorientInvIdx]
    rcases reorientFlip_vals d.affine (pinv (reorientPerm d.affine) k)
      with hs | hs | hs
    · rw [hs, reorientOff_pos d _ hs]
      omega
    · rw [hs, reorientOff_neg d _ hs]
      omega
    · exact absurd hs (hf _)
  · rw [hr]
    show d.data (fun m => reorientFlip d.affine m
        * reorientInvIdx d v (reorientPerm d.affine m) + reorientOff d m)
      = d.data v
    congr 1
    funext m
    exact reorient_index_eq d v hf hp01 hp02 hp12 m
  · have haff : r.affine
        = d.affine * flipMat (reorientFlip d.affine) (reorientOff d)
          * permMat (reorientPerm d.affine) := by
      rw [hr]
    rw [apply_affine_idx, apply_affine_idx, haff,
      apply_affine_mul _ _ (permMat_isAffine _),
      apply_affine_mul _ _ (flipMat_isAffine _ _),
      apply_affine_permMat, apply_affine_flipMat]
    refine congrArg (apply_affine d.affine) ?_
    funext m
    show ((reorientFlip d.affine m : ℤ) : ℚ)
        * ((reorientInvIdx d v (reorientPerm d.affine m) : ℤ) : ℚ)
        + ((reorientOff d m : ℤ) : ℚ)
      = ((v m : ℤ) : ℚ)
    exact_mod_cast reorient_index_eq d v hf hp01 hp02 hp12 m

/-- Witness for C1: the dataset `dW` (shape 2x3x4, affine permuting the
two first axes and flipping the second) is reoriented successfully and
the preserved-mapping property holds at voxel `(0, 1, 2)`. -/
theorem data_reorientation_preserves_mapping_witness :
    ∃ w : Fin 3 → ℤ,
      (∀ k, 0 ≤ w k ∧ w k < (rW.shape k : ℤ)) ∧
      rW.data w = dW.data vW ∧
      apply_affine_idx rW.affine w = apply_affine_idx dW.affine vW :=
  data_reorientation_preserves_mapping dW rW
    (by rw [dW_det]; decide)
    (Option.some_get (by decide)).symm
    vW (by decide)

/-- Counterexample half of the C1 correction: an invertible affine on
which `data_reorientation` raises instead of reorienting, because two
columns of the linear block share their dominant row, so the transpose
axes repeat.  The spec quantifies over every dataset with an invertible
affine; this dataset shows the success guarantee of that quantification
is false. -/
theorem data_reorientation_not_total_on_invertible :
    dBad.affine.det ≠ 0 ∧ data_reorientation dBad = none := by
  constructor
  · rw [dBad_det]
    decide
  · exact Option.isNone_iff_eq_none.mp (by decide)

/-- C3 (amended): `assert_same_space` returns silently exactly when the
full shape tuples (trailing, non-spatial dimensions included) agree and
every affine entry pair satisfies the allclose bound
`|a - b| <= 1e-8 + rtol * |b|` — an absolute slack of `atol = 1e-8`
applies everywhere, rather than exact equality being required at zero
entries of `b`; on failure the raised error carries both full shapes,
both affines and the `nanmax` of the elementwise relative
discrepancies. -/
theorem assert_same_space_spec {α β : Type _} (mri1 : MRIData α)
    (mri2 : MRIData β) (rtol : ℚ) :
    (assert_same_space mri1 mri2 rtol = .ok () ↔
      (mri1.fullShape = mri2.fullShape ∧
        ∀ i j, |mri1.affine i j - mri2.affine i j|
          ≤ 1 / 100000000 + rtol * |mri2.affine i j|)) ∧
    ∀ e, assert_same_space mri1 mri2 rtol = .error e →
      e.shape1 = mri1.fullShape ∧ e.shape2 = mri2.fullShape ∧
      e.affine1 = mri1.affine ∧ e.affine2 = mri2.affine ∧
      e.err = nanmaxRelErr mri1.affine mri2.affine := by
  constructor
  · constructor
    · intro hok
      by_contra hc
      rw [assert_same_space, if_neg hc] at hok
      cases hok
    · intro hc
      rw [assert_same_space, if_pos hc]
  · intro e he
    rw [assert_same_space] at he
    split_ifs at he with hc
    cases he
    exact ⟨rfl, rfl, rfl, rfl, rfl⟩

/-- Witness for C3: the specification theorem applied to the concrete
mismatched pair `dS1`, `dS2` and its concrete error payload `eS`. -/
theorem assert_same_space_spec_witness :
    eS.shape1 = dS1.fullShape ∧ eS.shape2 = dS2.fullShape ∧
    eS.affine1 = dS1.affine ∧ eS.affine2 = dS2.affine ∧
    eS.err = nanmaxRelErr dS1.affine dS2.affine :=
  (assert_same_space_spec dS1 dS2 (1 / 100000)).2 eS
    (by rw [assert_same_space, if_neg (by decide)]; exact rfl)

/-- Counterexample half of the C3 correction: the spec's reading of the
pass condition fails in both directions.  `dS1` and `dS2` agree in
spatial shape, data layout and affine, yet the comparison raises because
a trailing dimension differs; `dT1` and `dT2` have affines that are not
exactly equal at an entry where the second affine is 0, yet the
comparison passes thanks to the absolute `atol = 1e-8` slack. -/
theorem assert_same_space_divergence :
    ((∀ m, dS1.shape m = dS2.shape m) ∧ dS1.affine = dS2.affine ∧
      assert_same_space dS1 dS2 (1 / 100000) = .error eS) ∧
    (dT1.affine 0 0 ≠ dT2.affine 0 0 ∧ dT2.affine 0 0 = 0 ∧
      assert_same_space dT1 dT2 (1 / 100000) = .ok ()) := by
  refine ⟨⟨?_, rfl, ?_⟩, ?_, ?_, ?_⟩
  · intro m
    fin_cases m <;> rfl
  · rw [assert_same_space, if_neg (by decide)]
    exact rfl
  · show (!![(1 : ℚ)/1000000000, 0, 0, 0; 0, 1, 0, 0; 0, 0, 1, 0;
      0, 0, 0, 1]) 0 0 ≠ (!![(0 : ℚ), 0, 0, 0; 0, 1, 0, 0; 0, 0, 1, 0;
      0, 0, 0, 1]) 0 0
    norm_num [Matrix.cons_val_zero]
  · show (!![(0 : ℚ), 0, 0, 0; 0, 1, 0, 0; 0, 0, 1, 0;
      0, 0, 0, 1]) 0 0 = 0
    norm_num [Matrix.cons_val_zero]
  · have hcond : dT1.fullShape = dT2.fullShape ∧
        ∀ i j, |dT1.affine i j - dT2.affine i j|
          ≤ 1 / 100000000 + (1 / 100000) * |dT2.affine i j| := by
      refine ⟨rfl, ?_⟩
      intro i j
      show |(!![(1 : ℚ)/1000000000, 0, 0, 0; 0, 1, 0, 0; 0, 0, 1, 0;
          0, 0, 0, 1]) i j - (!![(0 : ℚ), 0, 0, 0; 0, 1, 0, 0;
          0, 0, 1, 0; 0, 0, 0, 1]) i j|
        ≤ 1 / 100000000 + (1 / 100000) * |(!![(0 : ℚ), 0, 0, 0;
          0, 1, 0, 0; 0, 0, 1, 0; 0, 0, 0, 1]) i j|
      fin_cases i <;> fin_cases j <;>
        norm_num [Matrix.cons_val_zero, Matrix.cons_val_one,
          Matrix.head_cons, Matrix.cons_val_succ, abs_of_nonneg]
    rw [assert_same_space, if_pos hcond]

/-- C9: space-equality is reflexive.  Comparing any dataset against
itself at the default relative tolerance `1e-5` passes silently: the
shape tuples are identical, and every affine entry difference is 0,
within the allclose bound. -/
theorem assert_same_space_refl {α : Type _} (d : MRIData α) :
    assert_same_space d d (1 / 100000) = .ok () := by
  have hcond : d.fullShape = d.fullShape ∧
      ∀ i j, |d.affine i j - d.affine i j|
        ≤ 1 / 100000000 + (1 / 100000) * |d.affine i j| := by
    refine ⟨rfl, ?_⟩
    intro i j
    rw [sub_self, abs_zero]
    positivity
  rw [assert_same_space, if_pos hcond]

/-- C7 (amended): on a mask with no True entry the search raises the
empty-mask error.  On a mask with at least one True entry the claimed
success holds only when k does not exceed the number of True voxels:
then, per query point, the returned neighbour list has exactly k
entries, contains only True voxels, is ordered nearest-first by
Euclidean distance, and excludes no True voxel strictly closer than a
returned one.  When k exceeds the number of True voxels and the query
batch is non-empty, the lookup of scipy's sentinel neighbour index
raises instead of returning k coordinates
(`find_nearest_valid_voxels_overcount` instantiates this).  The spec's
6x6 scenario with True at (0,0) and (5,5) returns (0,0) for query
(0.1, 0.1) and (5,5) for query (4.9, 4.9) at k = 1. -/
theorem find_nearest_valid_voxels_spec
    (queries : List (ℚ × ℚ × ℚ)) (X Y Z k : ℕ)
    (mask : ℕ × ℕ × ℕ → Bool) :
    ((np_argwhere X Y Z mask).length = 0 →
      find_nearest_valid_voxels queries X Y Z mask k
        = .error "No valid indices found in mask.") ∧
    ((np_argwhere X Y Z mask).length ≠ 0 → queries ≠ [] →
      (np_argwhere X Y Z mask).length < k →
      find_nearest_valid_voxels queries X Y Z mask k
        = .error "index out of bounds") ∧
    ((np_argwhere X Y Z mask).length ≠ 0 → 1 ≤ k →
      k ≤ (np_argwhere X Y Z mask).length →
      find_nearest_valid_voxels queries X Y Z mask k
        = .ok (queries.map fun q =>
            kdtree_query (np_argwhere X Y Z mask) q k) ∧
      ∀ q : ℚ × ℚ × ℚ,
        (kdtree_query (np_argwhere X Y Z mask) q k).length = k ∧
        (∀ v ∈ kdtree_query (np_argwhere X Y Z mask) q k,
          mask v = true) ∧
        (kdtree_query (np_argwhere X Y Z mask) q k).Sorted
          (fun a b => sqDist q a ≤ sqDist q b) ∧
        (∀ v ∈ np_argwhere X Y Z mask,
          v ∉ kdtree_query (np_argwhere X Y Z mask) q k →
          ∀ u ∈ kdtree_query (np_argwhere X Y Z mask) q k,
            sqDist q u ≤ sqDist q v)) ∧
    find_nearest_valid_voxels qsW 6 6 1 maskW 1
      = .ok [[(0, 0, 0)], [(5, 5, 0)]] := by
  refine ⟨?_, ?_, ?_, ?_⟩
  · intro h0
    rw [find_nearest_valid_voxels, if_pos h0]
  · intro hne hq hlt
    rw [find_nearest_valid_voxels, if_neg hne,
      if_neg (show ¬(k = 0) by omega), if_pos ⟨hq, hlt⟩]
  · intro hne hk1 hkn
    refine ⟨by
      rw [find_nearest_valid_voxels, if_neg hne,
        if_neg (show ¬(k = 0) by omega),
        if_neg (show ¬(queries ≠ [] ∧
            (np_argwhere X Y Z mask).length < k) from
          fun h => absurd hkn (not_le.mpr h.2))], ?_⟩
    intro q
    haveI : IsTotal (ℕ × ℕ × ℕ) (fun a b => sqDist q a ≤ sqDist q b) :=
      ⟨fun a b => le_total _ _⟩
    haveI : IsTrans (ℕ × ℕ × ℕ) (fun a b => sqDist q a ≤ sqDist q b) :=
      ⟨fun a b c => le_trans⟩
    have hsorted := List.sorted_insertionSort
      (fun a b => sqDist q a ≤ sqDist q b) (np_argwhere X Y Z mask)
    have hperm := List.perm_insertionSort
      (fun a b => sqDist q a ≤ sqDist q b) (np_argwhere X Y Z mask)
    refine ⟨?_, ?_, ?_, ?_⟩
    · rw [kdtree_query, List.length_take, hperm.length_eq]
      exact min_eq_left hkn
    · intro v hv
      rw [kdtree_query] at hv
      have hv2 : v ∈ np_argwhere X Y Z mask :=
        hperm.mem_iff.mp (List.mem_of_mem_take hv)
      exact (List.mem_filter.mp hv2).2
    · rw [kdtree_query]
      exact List.Pairwise.sublist (List.take_sublist _ _) hsorted
    · intro v hvvalid hvnot u hu
      rw [kdtree_query] at hvnot hu
      have hvs : v ∈ List.insertionSort
          (fun a b => sqDist q a ≤ sqDist q b) (np_argwhere X Y Z mask) :=
        hperm.mem_iff.mpr hvvalid
      rw [← List.take_append_drop k
        (List.insertionSort (fun a b => sqDist q a ≤ sqDist q b)
          (np_argwhere X Y Z mask))] at hsorted hvs
      rcases List.mem_append.mp hvs with hvt | hvd
      · exact absurd hvt hvnot
      · exact (List.pairwise_append.mp hsorted).2.2 u hu v hvd
  · have hval : np_argwhere 6 6 1 maskW = [(0, 0, 0), (5, 5, 0)] := by
      decide
    have h1 : kdtree_query [(0, 0, 0), (5, 5, 0)] (1/10, 1/10, 0) 1
        = [(0, 0, 0)] := by
      rw [kdtree_query]
      norm_num [List.insertionSort, List.orderedInsert, sqDist, List.take]
    have h2 : kdtree_query [(0, 0, 0), (5, 5, 0)] (49/10, 49/10, 0) 1
        = [(5, 5, 0)] := by
      rw [kdtree_query]
      norm_num [List.insertionSort, List.orderedInsert, sqDist, List.take]
    rw [find_nearest_valid_voxels, hval,
      if_neg (by decide :
        ¬(([(0, 0, 0), (5, 5, 0)] : List (ℕ × ℕ × ℕ)).length = 0)),
      if_neg (by decide : ¬((1 : ℕ) = 0)),
      if_neg (by decide : ¬(qsW ≠ [] ∧
        ([(0, 0, 0), (5, 5, 0)] : List (ℕ × ℕ × ℕ)).length < 1)),
      qsW, List.map_cons, List.map_cons, List.map_nil, h1, h2]

/-- Witness for C7: the empty-mask branch raises on an all-false 1x1x1
mask, asking for 2 neighbours of a single True voxel raises the index
error, and in the 6x6 scenario the neighbour list of query (0.1, 0.1)
has exactly one entry. -/
theorem find_nearest_valid_voxels_spec_witness :
    find_nearest_valid_voxels qsW 1 1 1 mask0 1
      = .error "No valid indices found in mask." ∧
    find_nearest_valid_voxels [((0 : ℚ), (0 : ℚ), (0 : ℚ))] 1 1 1 mask1 2
      = .error "index out of bounds" ∧
    (kdtree_query (np_argwhere 6 6 1 maskW) (1/10, 1/10, 0) 1).length
      = 1 :=
  ⟨(find_nearest_valid_voxels_spec qsW 1 1 1 1 mask0).1 (by decide),
    (find_nearest_valid_voxels_spec [((0 : ℚ), (0 : ℚ), (0 : ℚ))]
      1 1 1 2 mask1).2.1 (by decide) (by decide) (by decide),
    (((find_nearest_valid_voxels_spec qsW 6 6 1 1 maskW).2.2.1
      (by decide) (by decide) (by decide)).2 (1/10, 1/10, 0)).1⟩

/-- Counterexample half of the C7 correction: a 1x1x1 mask with its
single voxel True, queried for k = 2 neighbours of one query point.
The claim promises k returned coordinates for every mask with at least
one True entry, but the source instead raises: scipy returns the
sentinel neighbour index 1 for the missing neighbour and
`valid_inds[indices]` raises an `IndexError`. -/
theorem find_nearest_valid_voxels_overcount :
    (np_argwhere 1 1 1 mask1).length = 1 ∧
    find_nearest_valid_voxels [((0 : ℚ), (0 : ℚ), (0 : ℚ))] 1 1 1 mask1 2
      = .error "index out of bounds" := by
  constructor
  · decide
  · rw [find_nearest_valid_voxels,
      if_neg (by decide : ¬((np_argwhere 1 1 1 mask1).length = 0)),
      if_neg (by decide : ¬((2 : ℕ) = 0)),
      if_pos (⟨by decide, by decide⟩ :
        ([((0 : ℚ), (0 : ℚ), (0 : ℚ))] : List (ℚ × ℚ × ℚ)) ≠ [] ∧
          (np_argwhere 1 1 1 mask1).length < 2)]

end MRITK
